import Mathlib

/-!
Verification of the kspace library (Kerbal Space Program part/ship reader).

This file gives a shallow embedding of `kspace.py` and proves properties of
the embedded definitions.  The embedding follows the Python source closely:

* Python dictionaries become association lists with overwrite-on-insert
  (`insertA`); a lookup that raises `KeyError` becomes a `none` result.
* Fallible operations (`int(...)`, `float(...)`, tuple unpacking of a
  `split` result, attribute access on an attribute that was never set,
  `max` of an empty sequence) return `Option`, with `none` standing for the
  Python exception.
* Object identity of `RealizedPart`s inside a `Ship` is modelled by the
  part's index in the ship's `parts` sequence; a reference field therefore
  holds either an unresolved identifier string (`Ref.ident`) or a resolved
  part index (`Ref.part`).
* The process-wide `SKIPPED_KEYS` diagnostic registry is threaded through
  the parsing functions as an explicit accumulator (`SkipReg`).
* Python `float` values are modelled exactly as decimal fractions
  (`PyFloat`, a numerator/denominator pair); `float(...)` is modelled on
  plain decimal literals (optional sign, digits, optional fraction), which
  covers the value domain of the part/ship formats.  The program only ever
  constructs and adds these values, so exact fractions are adequate.
* String primitives (`strip`, `split`, `startswith`, `replace`, `lower`,
  `join`) are implemented by structural recursion over the character list
  so that all definitions evaluate.
-/

namespace Kspace

/-! ## String primitives (models of the Python str methods used) -/

/-- The whitespace characters removed by Python `str.strip()`. -/
def isSpc (c : Char) : Bool :=
  c == ' ' || c == '\t' || c == '\n' || c == '\r' ||
  c == Char.ofNat 11 || c == Char.ofNat 12

/-- Drop leading whitespace characters. -/
def dropLead : List Char → List Char
  | [] => []
  | c :: rest => if isSpc c then dropLead rest else c :: rest

/-- Python `s.strip()`. -/
def strTrim (s : String) : String :=
  ⟨(dropLead ((dropLead s.data).reverse)).reverse⟩

/-- Does the first list lead the second? -/
def isLead : List Char → List Char → Bool
  | [], _ => true
  | _ :: _, [] => false
  | p :: ps, c :: cs => p == c && isLead ps cs

/-- Python `s.startswith(p)`. -/
def strStartsWith (s p : String) : Bool := isLead p.data s.data

/-- Split a character list on a separator character (Python `str.split`
with a one-character separator and no limit). -/
def splitChL (sep : Char) : List Char → List (List Char)
  | [] => [[]]
  | c :: rest =>
      if c == sep then [] :: splitChL sep rest
      else
        match splitChL sep rest with
        | [] => [[c]]
        | hd :: tl => (c :: hd) :: tl

/-- Python `s.split(sep)` for a one-character separator. -/
def splitCh (sep : Char) (s : String) : List String :=
  (splitChL sep s.data).map String.mk

/-- Join character lists with a separator (Python `sep.join`). -/
def joinChL (sep : Char) : List (List Char) → List Char
  | [] => []
  | [x] => x
  | x :: y :: rest => x ++ sep :: joinChL sep (y :: rest)

/-- Python `sep.join(parts)` for a one-character separator. -/
def joinCh (sep : Char) (l : List String) : String :=
  ⟨joinChL sep (l.map String.data)⟩

/-- Removal loop of `str.replace(pat, '')`, left to right, non-overlapping;
the fuel argument (instantiated with the list length) only serves
structural termination. -/
def removeFuel (pat : List Char) : Nat → List Char → List Char
  | _, [] => []
  | 0, cs => cs
  | fuel + 1, c :: rest =>
      if isLead pat (c :: rest) then
        match pat with
        | [] => c :: removeFuel [] fuel rest
        | _ :: ps => removeFuel pat fuel (rest.drop ps.length)
      else c :: removeFuel pat fuel rest

/-- Python `s.replace(pat, '')` for non-empty `pat`. -/
def strRemoveAll (pat : String) (s : String) : String :=
  ⟨removeFuel pat.data s.data.length s.data⟩

/-- Python `s.lower()` (ASCII). -/
def strLower (s : String) : String := ⟨s.data.map Char.toLower⟩

/-! ## Association lists (model of Python dict) -/

/-- Dictionary lookup; `none` models `KeyError`. -/
def lookupA {α : Type} : List (String × α) → String → Option α
  | [], _ => none
  | (k', v) :: rest, k => if k' == k then some v else lookupA rest k

/-- Dictionary assignment `d[k] = v`: overwrite if present, append otherwise. -/
def insertA {α : Type} : List (String × α) → String → α → List (String × α)
  | [], k, v => [(k, v)]
  | (k', v') :: rest, k, v =>
      if k' == k then (k, v) :: rest else (k', v') :: insertA rest k v

/-- Dictionary removal `d.pop(k)` (the key part); removes the first binding. -/
def eraseA {α : Type} : List (String × α) → String → List (String × α)
  | [], _ => []
  | (k', v') :: rest, k => if k' == k then rest else (k', v') :: eraseA rest k

/-- Map a fallible function over a list, failing if any element fails. -/
def mapO {α β : Type} (f : α → Option β) : List α → Option (List β)
  | [] => some []
  | a :: rest =>
      match f a, mapO f rest with
      | some b, some bs => some (b :: bs)
      | _, _ => none

/-- Python `max` over a list; `none` models `max` of an empty sequence. -/
def maxOf? : List Int → Option Int
  | [] => none
  | x :: xs =>
      match maxOf? xs with
      | none => some x
      | some m => some (max x m)

/-! ## Exact decimal values (model of Python float on this input domain) -/

/-- An exact fraction `num / den`.  The program never compares or divides
floats, so an unnormalized pair is an adequate exact model. -/
structure PyFloat : Type where
  num : Int
  den : Int
deriving DecidableEq, Repr

/-- Fraction addition. -/
def pfAdd (a b : PyFloat) : PyFloat :=
  ⟨a.num * b.den + b.num * a.den, a.den * b.den⟩

/-- Fraction negation. -/
def pfNeg (a : PyFloat) : PyFloat := ⟨-a.num, a.den⟩

/-- The float `0.0` (initial value of the mass accumulator). -/
def pfZero : PyFloat := ⟨0, 1⟩

/-- Sum of a list of fractions, left-associated from zero like the
accumulation loops of the source. -/
def pfSum : List PyFloat → PyFloat
  | [] => pfZero
  | a :: rest => pfAdd a (pfSum rest)

/-! ## Scalar coercion (model of int() / float() on the input domain) -/

/-- Digit-string to `Nat`; `none` on empty or non-digit input. -/
def digitsNat? (cs : List Char) : Option Nat :=
  if cs ≠ [] ∧ cs.all (·.isDigit) then
    some (cs.foldl (fun a c => a * 10 + (c.toNat - 48)) 0)
  else none

/-- Python `int(...)` on stripped text: optional sign followed by digits. -/
def parseInt? (s : String) : Option Int :=
  match s.data with
  | '-' :: rest => (digitsNat? rest).map (fun n => -(n : Int))
  | '+' :: rest => (digitsNat? rest).map (fun n => (n : Int))
  | cs => (digitsNat? cs).map (fun n => (n : Int))

/-- `10 ^ n` as an integer. -/
def tenPow : Nat → Int
  | 0 => 1
  | n + 1 => 10 * tenPow n

/-- Unsigned decimal literal: digits, optionally a dot and further digits,
with at least one digit overall (`float('1.')`, `float('.5')` both parse). -/
def parseFloatCore (cs : List Char) : Option PyFloat :=
  match splitChL '.' cs with
  | [ip] =>
      if ip ≠ [] ∧ ip.all (·.isDigit) then
        some ⟨(ip.foldl (fun a c => a * 10 + (c.toNat - 48)) 0 : Nat), 1⟩
      else none
  | [ip, fp] =>
      if (ip ≠ [] ∨ fp ≠ []) ∧ ip.all (·.isDigit) ∧ fp.all (·.isDigit) then
        some ⟨(ip.foldl (fun a c => a * 10 + (c.toNat - 48)) 0 : Nat) * tenPow fp.length
                + (fp.foldl (fun a c => a * 10 + (c.toNat - 48)) 0 : Nat),
              tenPow fp.length⟩
      else none
  | _ => none

/-- Python `float(...)` on stripped decimal text. -/
def parseFloat? (s : String) : Option PyFloat :=
  match s.data with
  | '-' :: rest => (parseFloatCore rest).map pfNeg
  | '+' :: rest => parseFloatCore rest
  | cs => parseFloatCore cs

/-! ## The diagnostic registry SKIPPED_KEYS -/

/-- The entity an unrecognized key was stored on. -/
inductive Entity : Type where
  | partDef : Entity
  | shipLevel : Entity
  | shipPart : Nat → Entity
deriving DecidableEq, Repr

/-- The `SKIPPED_KEYS` registry: `(key, entity, raw value)` in append order. -/
abbrev SkipReg : Type := List (String × Entity × String)

/-- Entries recorded under a given key, in order (model of
`SKIPPED_KEYS[key]`). -/
def retrieve (reg : SkipReg) (k : String) : List (Entity × String) :=
  (reg.filter (fun e => e.1 == k)).map (fun e => e.2)

/-! ## Typed attribute values and readers -/

/-- A typed value stored by one of the `read_*` setters. -/
inductive AttrValue : Type where
  | str : String → AttrValue
  | int : Int → AttrValue
  | float : PyFloat → AttrValue
  | bool : Bool → AttrValue
  | floatList : List PyFloat → AttrValue
  | intList : List Int → AttrValue
  | strList : List String → AttrValue
deriving DecidableEq, Repr

/-- Python truthiness of a stored attribute value (`if setter:` in
`read_generic`): empty strings, zeros, empty collections and `False` are
falsy, everything else truthy. -/
def AttrValue.truthy : AttrValue → Bool
  | .str s => !(s == "")
  | .int n => !(n == 0)
  | .float q => !(q.num == 0)
  | .bool b => b
  | .floatList l => !l.isEmpty
  | .intList l => !l.isEmpty
  | .strList l => !l.isEmpty

/-- The coercion performed by a `read_*` class attribute. -/
inductive Reader : Type where
  | str : Reader
  | int : Reader
  | float : Reader
  | bool : Reader
  | floatList : Reader
  | intList : Reader
  | strList : Reader
deriving DecidableEq, Repr

/-- Apply a reader's coercion to raw text; `none` models the conversion
exception (read_string and read_bool never fail, the numeric and
numeric-list readers fail on malformed text). -/
def applyReader : Reader → String → Option AttrValue
  | .str, v => some (.str v)
  | .int, v => (parseInt? v).map .int
  | .float, v => (parseFloat? v).map .float
  | .bool, v => some (.bool (strLower v == "true" || strLower v == "1"))
  | .floatList, v =>
      (mapO (fun s => parseFloat? (strTrim s)) (splitCh ',' v)).map .floatList
  | .intList, v =>
      (mapO (fun s => parseInt? (strTrim s)) (splitCh ',' v)).map .intList
  | .strList, v => some (.strList (splitCh ',' v))

/-! ## Part type catalog entries (Python class Part and subclasses)

A `Part` is one parsed `part.cfg`: the module (class) name selected by the
`module` key, the attachment-node geometry mapping, and a flat attribute
store (Python instance `__dict__`), seeded by `Part.__init__` with
`name = ''` and `fuelCrossFeed = False`. -/

structure Part : Type where
  module : String
  node_stack : List (String × List PyFloat)
  fields : List (String × AttrValue)
deriving DecidableEq, Repr

/-- The `read_*` table of the base class `Part`. -/
def partBaseReader : String → Option Reader
  | "name" => some .str
  | "author" => some .str
  | "node_attach" => some .floatList
  | "mesh" => some .str
  | "scale" => some .float
  | "texture" => some .str
  | "specPower" => some .float
  | "rimFalloff" => some .float
  | "alphaCutoff" => some .float
  | "cost" => some .float
  | "category" => some .int
  | "subcategory" => some .int
  | "title" => some .str
  | "manufacturer" => some .str
  | "description" => some .str
  | "iconCenter" => some .floatList
  | "icon" => some .str
  | "iconScale" => some .floatList
  | "attachRules" => some .intList
  | "mass" => some .float
  | "dragModelType" => some .str
  | "maximum_drag" => some .float
  | "minimum_drag" => some .float
  | "angularDrag" => some .float
  | "crashTolerance" => some .float
  | "maxTemp" => some .float
  | "breakingForce" => some .float
  | "breakingTorque" => some .float
  | "stageBefore" => some .bool
  | "stageAfter" => some .bool
  | "fuelCrossFeed" => some .bool
  | _ => none

/-- Left-biased combination of two reader tables (subclass shadows base). -/
def orR (a b : Option Reader) : Option Reader :=
  match a with
  | some r => some r
  | none => b

/-- Mixin class `Explosive`. -/
def explosiveReader : String → Option Reader
  | "explosionPotential" => some .float
  | "fullExplosionPotential" => some .float
  | "emptyExplosionPotential" => some .float
  | _ => none

/-- Class `SASBase(Part)`. -/
def sasBaseReader (k : String) : Option Reader :=
  orR (match k with
       | "torque" => some .float
       | "maxTorque" => some .float
       | "Ki" => some .float
       | "Kd" => some .float
       | "Kp" => some .float
       | _ => none)
      (partBaseReader k)

/-- Class `CommandPod(SASBase)`. -/
def commandPodReader (k : String) : Option Reader :=
  orR (match k with
       | "linPower" => some .float
       | "rotPower" => some .float
       | _ => none)
      (sasBaseReader k)

/-- Class `FuelBase(Part, Explosive)`. -/
def fuelBaseReader (k : String) : Option Reader :=
  orR (match k with
       | "fuel" => some .float
       | "dryMass" => some .float
       | _ => none)
      (orR (partBaseReader k) (explosiveReader k))

/-- Class `Parachutes(Part)`. -/
def parachutesReader (k : String) : Option Reader :=
  orR (match k with
       | "useAGL" => some .bool
       | "autoDeployDelay" => some .float
       | "minAirPressureToOpen" => some .float
       | "deployAltitude" => some .float
       | "closedDrag" => some .float
       | "semiDeployedDrag" => some .float
       | "fullyDeployedDrag" => some .float
       | "stageOffset" => some .int
       | _ => none)
      (partBaseReader k)

/-- Class `DecouplerBase(Part)`. -/
def decouplerBaseReader (k : String) : Option Reader :=
  orR (match k with
       | "ejectionForce" => some .float
       | "childStageOffset" => some .int
       | "stageOffset" => some .int
       | _ => none)
      (partBaseReader k)

/-- Class `RCSModule(Part)`. -/
def rcsModuleReader (k : String) : Option Reader :=
  orR (match k with
       | "thrustVector0" => some .floatList
       | "thrustVector1" => some .floatList
       | "thrustVector2" => some .floatList
       | "thrustVector3" => some .floatList
       | "fuelConsumption" => some .float
       | _ => none)
      (partBaseReader k)

/-- Class `EngineBase(Part)`. -/
def engineBaseReader (k : String) : Option Reader :=
  orR (match k with
       | "heatProduction" => some .float
       | "fuelConsumption" => some .float
       | "thrustVectoringCapable" => some .bool
       | "gimbalRange" => some .float
       | _ => none)
      (partBaseReader k)

/-- Class `SolidRocket(EngineBase, Explosive)`. -/
def solidRocketReader (k : String) : Option Reader :=
  orR (match k with
       | "thrust" => some .float
       | "dryMass" => some .float
       | "internalFuel" => some .float
       | "thrustCenter" => some .floatList
       | "thrustVector" => some .floatList
       | _ => none)
      (orR (engineBaseReader k) (explosiveReader k))

/-- Class `LiquidEngine(EngineBase)`. -/
def liquidEngineReader (k : String) : Option Reader :=
  orR (match k with
       | "maxThrust" => some .float
       | "minThrust" => some .float
       | _ => none)
      (engineBaseReader k)

/-- Class `LandingLeg(Part)`. -/
def landingLegReader (k : String) : Option Reader :=
  orR (match k with
       | "extensionTime" => some .float
       | "retractTime" => some .float
       | "pivotAxis" => some .floatList
       | "pivotingAngle" => some .float
       | _ => none)
      (partBaseReader k)

/-- Class `ConnectorBase(Part, Explosive)`. -/
def connectorBaseReader (k : String) : Option Reader :=
  orR (match k with
       | "linearStrength" => some .float
       | "angularStrength" => some .float
       | "maxLength" => some .float
       | _ => none)
      (orR (partBaseReader k) (explosiveReader k))

/-- Class `Strut(DecouplerBase)` (also `RadialDecoupler`). -/
def strutReader (k : String) : Option Reader :=
  orR (match k with
       | "stackSymmetry" => some .int
       | _ => none)
      (decouplerBaseReader k)

/-- Class `ControlledDragBase(Part, Explosive)` (also `Winglet`). -/
def controlledDragReader (k : String) : Option Reader :=
  orR (match k with
       | "dragCoeff" => some .float
       | "deflectionLiftCoeff" => some .float
       | _ => none)
      (orR (partBaseReader k) (explosiveReader k))

/-- Class `ControlSurface(ControlledDragBase)`. -/
def controlSurfaceReader (k : String) : Option Reader :=
  orR (match k with
       | "ctrlSurfaceRange" => some .float
       | "ctrlSurfaceArea" => some .float
       | _ => none)
      (controlledDragReader k)

/-- The `read_<key>` lookup `getattr(obj, 'read_' + key)` for a part of the
given module (class): the explicitly declared typed setters, resolved
through the class hierarchy of the source. -/
def partHandler (m k : String) : Option Reader :=
  match m with
  | "Part" => partBaseReader k
  | "SASBase" => sasBaseReader k
  | "CommandPod" => commandPodReader k
  | "AdvSASModule" => sasBaseReader k
  | "SASModule" => sasBaseReader k
  | "FuelBase" => fuelBaseReader k
  | "FuelTank" => fuelBaseReader k
  | "Parachutes" => parachutesReader k
  | "DecouplerBase" => decouplerBaseReader k
  | "Decoupler" => decouplerBaseReader k
  | "RCSFuelTank" => fuelBaseReader k
  | "RCSModule" => rcsModuleReader k
  | "EngineBase" => engineBaseReader k
  | "SolidRocket" => solidRocketReader k
  | "LiquidEngine" => liquidEngineReader k
  | "LandingLeg" => landingLegReader k
  | "ConnectorBase" => connectorBaseReader k
  | "StrutConnector" => connectorBaseReader k
  | "FuelLine" => connectorBaseReader k
  | "Strut" => strutReader k
  | "RadialDecoupler" => strutReader k
  | "ControlledDragBase" => controlledDragReader k
  | "Winglet" => controlledDragReader k
  | "ControlSurface" => controlSurfaceReader k
  | _ => none

/-- Module names for which `globals()[module_name]` yields a constructible
part class (Python `Part.get_module_class`); every other name raises. -/
def partClassKnown (m : String) : Bool :=
  m == "Part" || m == "SASBase" || m == "CommandPod" || m == "AdvSASModule" ||
  m == "SASModule" || m == "FuelBase" || m == "FuelTank" || m == "Parachutes" ||
  m == "DecouplerBase" || m == "Decoupler" || m == "RCSFuelTank" ||
  m == "RCSModule" || m == "EngineBase" || m == "SolidRocket" ||
  m == "LiquidEngine" || m == "LandingLeg" || m == "ConnectorBase" ||
  m == "StrutConnector" || m == "FuelLine" || m == "Strut" ||
  m == "RadialDecoupler" || m == "ControlledDragBase" || m == "Winglet" ||
  m == "ControlSurface"

/-- `Part.is_engine`: overridden to `True` exactly in `EngineBase` and its
subclasses. -/
def isEngineOf (p : Part) : Bool :=
  p.module == "EngineBase" || p.module == "SolidRocket" || p.module == "LiquidEngine"

/-- The part's `mass` attribute as read by the stage queries; `none` models
both a missing attribute and a non-numeric value (either raises). -/
def massOf (pt : Part) : Option PyFloat :=
  match lookupA pt.fields "mass" with
  | some (.float q) => some q
  | _ => none

/-- The part's `name` attribute (always present: seeded as `''`). -/
def partName (p : Part) : String :=
  match lookupA p.fields "name" with
  | some (.str s) => s
  | _ => ""

/-- `Part.read_attribute`.  The call `part.read_attribute(k, v)` first
looks `read_attribute` up on the instance: an earlier unrecognized key
named `read_attribute` left a raw string there (`read_skip` does
`setattr`), and calling a string raises `TypeError`.  Then: the
node-stack structural prefix (failing if a planted `node_stack` string
shadows the dict), the ignorable fx/sound prefixes, and generic dispatch
(`read_generic`): `getattr(obj, 'read_' + key)` consults the instance
dict (`fields`) before the class table, so a planted truthy value is
called and raises, a planted falsy value falls through to `read_skip`,
and only an unshadowed key reaches its class handler.  The key
`attribute` denotes `read_attribute` itself, which would self-dispatch
forever in the source, hence fails. -/
def Part.read_attribute (p : Part) (reg : SkipReg) (k v : String) :
    Option (Part × SkipReg) :=
  if (lookupA p.fields "read_attribute").isSome then none
  else if strStartsWith k "node_stack_" then
    if (lookupA p.fields "node_stack").isSome then none
    else
      match applyReader .floatList v with
      | some (.floatList l) =>
          some ({ p with node_stack := insertA p.node_stack (strRemoveAll "node_stack_" k) l }, reg)
      | _ => none
  else if strStartsWith k "fx_" || strStartsWith k "sound_" then some (p, reg)
  else
    match lookupA p.fields ("read_" ++ k) with
    | some setter =>
        if setter.truthy then none
        else
          some ({ p with fields := insertA p.fields k (.str v) },
                reg ++ [(k, Entity.partDef, v)])
    | none =>
        if k == "attribute" then none
        else
          match partHandler p.module k with
          | some r =>
              match applyReader r v with
              | some val => some ({ p with fields := insertA p.fields k val }, reg)
              | none => none
          | none =>
              some ({ p with fields := insertA p.fields k (.str v) },
                    reg ++ [(k, Entity.partDef, v)])

/-- `ln.split('=', 1)` followed by stripping both halves; `none` models the
unpacking `ValueError` when the line has no separator. -/
def splitKV (s : String) : Option (String × String) :=
  match splitCh '=' s with
  | [_] => none
  | [] => none
  | a :: rest => some (strTrim a, strTrim (joinCh '=' rest))

/-- One line of `Part.load`'s scanning loop: strip, skip comments and
separator-less lines, otherwise record `key = value` (later key wins). -/
def partLineStep (vs : List (String × String)) (rawLn : String) :
    List (String × String) :=
  let ln := strTrim rawLn
  if strStartsWith ln "//" then vs
  else
    match splitKV ln with
    | none => vs
    | some (k, v) => insertA vs k v

/-- The flat key-to-text mapping `values` built by `Part.load`. -/
def partParseValues (text : String) : List (String × String) :=
  (splitCh '\n' text).foldl partLineStep []

/-- Apply `read_attribute` for every remaining key of the values mapping. -/
def partApplyAll (p : Part) (reg : SkipReg) :
    List (String × String) → Option (Part × SkipReg)
  | [] => some (p, reg)
  | (k, v) :: rest =>
      match Part.read_attribute p reg k v with
      | none => none
      | some (p', reg') => partApplyAll p' reg' rest

/-- `Part.load`: build the values mapping, pop `module` (`KeyError` if
absent), instantiate the module class (`KeyError` if unknown), then apply
every remaining key.  `Part.__init__` seeds `name` and `fuelCrossFeed`. -/
def Part.load (text : String) (reg : SkipReg) : Option (Part × SkipReg) :=
  let values := partParseValues text
  match lookupA values "module" with
  | none => none
  | some m =>
      if partClassKnown m then
        partApplyAll { module := m, node_stack := [],
                       fields := [("name", AttrValue.str ""),
                                  ("fuelCrossFeed", AttrValue.bool false)] }
          reg (eraseA values "module")
      else none

/-- `Part.load_all` over a batch of already-read file contents: load each
in order into the name-indexed catalog; a failing input aborts the batch
(the source has no exception handling around `Part.load`). -/
def Part.load_all (inputs : List String) (defs : List (String × Part))
    (reg : SkipReg) : Option (List (String × Part) × SkipReg) :=
  match inputs with
  | [] => some (defs, reg)
  | t :: rest =>
      match Part.load t reg with
      | none => none
      | some (p, reg') => Part.load_all rest (insertA defs (partName p) p) reg'

/-! ## Ships and realized parts

Object identity of a `RealizedPart` inside its ship is modelled by its
index in the ship's `parts` sequence.  A reference field is `Ref.ident s`
while it still holds the raw identifier string, and `Ref.part i` once the
resolution pass replaced it with the part stored at index `i`. -/

/-- A reference field's content: raw identifier or resolved part. -/
inductive Ref : Type where
  | ident : String → Ref
  | part : Nat → Ref
deriving DecidableEq, Repr

/-- One placed part of a ship (Python class `RealizedPart`).  The typed
fields hold the values written by the class-level `read_*` handlers;
`extra` is the raw-string portion of the instance dict — everything
`read_skip`'s `setattr` stored.  A key in `extra` naming one of the typed
fields means the live attribute holds that raw string: every reader of a
typed field consults `extra` first and fails or iterates the string as
Python does (the string-valued `part_id` holds a planted string directly,
and a planted `part_type` reads like the seeded `None`, so it resets to
`none`). -/
structure RealizedPart : Type where
  part_type : Option Part
  part_id : Option String
  links : List Ref
  attachments : List (String × Ref)
  surface_attachments : List Ref
  sym : List Ref
  istg : Option Int
  dstg : Option Int
  sidx : Option Int
  sqor : Option Int
  attm : Option Int
  pos : Option (List PyFloat)
  rot : Option (List PyFloat)
  extra : List (String × String)
deriving DecidableEq, Repr

/-- `RealizedPart.__init__` before any key/value line is read. -/
def RealizedPart.init : RealizedPart :=
  ⟨none, none, [], [], [], [], none, none, none, none, none, none, none, []⟩

/-- Reading `p.istg` for the grouping dict of `Ship.resolve_links`.  The
typed field holds the integer set by `read_stage`; if `read_skip` planted
a raw string under `istg` instead (`extra`), the attribute exists but is a
string, every string compares greater than every integer in Python 2, so
`max(...) + 1` raises `TypeError` — the pass fails either way, modelled as
`none` here. -/
def istgGet (p : RealizedPart) : Option Int :=
  if (lookupA p.extra "istg").isSome then none else p.istg

/-- Reading `p.dstg`, with the same planted-string rule as `istgGet`. -/
def dstgGet (p : RealizedPart) : Option Int :=
  if (lookupA p.extra "dstg").isSome then none else p.dstg

/-- `p.sqor` must merely exist for its grouping dict (which is never used
afterwards): either the integer set by `read_stage` or a raw string
planted by `read_skip` — a string key never reaches a `max`, so it does
not fail. -/
def sqorHas (p : RealizedPart) : Bool :=
  p.sqor.isSome || (lookupA p.extra "sqor").isSome

/-- One derived stage (Python class `Stage`); the part lists hold indices
into the ship's `parts` sequence.  `Ship.resolve_links` never passes the
`sqor` argument, so that list is always empty. -/
structure Stage : Type where
  stage_num : Nat
  ignition : List Nat
  detach : List Nat
  sqor : List Nat
deriving DecidableEq, Repr

/-- A ship (Python class `Ship`): string attributes (seeded with
`ship = ''`), the part sequence, the part-by-id index, and the stages
built by `resolve_links`.  `attrs` is the raw-string portion of the
ship's instance dict: `read_string` for `ship`/`version` and `read_skip`
for everything else `setattr` into it.  A key in `attrs` naming one of
the live fields (`part`, `parts`, `part_library`) or a method
(`resolve_links`) means that attribute now holds the raw string rather
than the dict, list, catalog or method, and every reader consults `attrs`
first, failing exactly where Python does; the `partIdx` and `parts`
fields keep the last live value, meaningful only while unshadowed. -/
structure Ship : Type where
  attrs : List (String × String)
  parts : List RealizedPart
  partIdx : List (String × Nat)
  stages : List Stage
deriving DecidableEq, Repr

/-- The part catalog handed to `Ship.load` (Python `PART_DEFS`). -/
abbrev PartLib : Type := String → Option Part

/-! ### Link resolution (second pass) -/

/-- Look a reference up in the ship's string-keyed part-by-id dict.  An
already-resolved reference is a `RealizedPart` object, never a key of that
dict, so looking it up raises `KeyError` (`none`). -/
def resolveRef (pid : List (String × Nat)) : Ref → Option Nat
  | .ident s => lookupA pid s
  | .part _ => none

/-- `[pid[l] for l in refs]`. -/
def resolveRefs (pid : List (String × Nat)) : List Ref → Option (List Ref)
  | [] => some []
  | r :: rest =>
      match resolveRef pid r, resolveRefs pid rest with
      | some i, some rest' => some (Ref.part i :: rest')
      | _, _ => none

/-- Resolution of the location-keyed attachments dict values. -/
def resolveAtt (pid : List (String × Nat)) :
    List (String × Ref) → Option (List (String × Ref))
  | [] => some []
  | (locn, r) :: rest =>
      match resolveRef pid r, resolveAtt pid rest with
      | some i, some rest' => some ((locn, Ref.part i) :: rest')
      | _, _ => none

/-- `[pid[l] for l in ...]` over the current value of one reference
attribute.  If `read_skip` planted a raw string under the attribute's name
(`planted`), the comprehension iterates the string's characters and looks
each one-character string up in the dict.  If `ship.part` itself was
overwritten by a raw string (`pidOk = false`), indexing it with a string
key raises `TypeError`, so only an empty iteration succeeds. -/
def resolveList (pid : List (String × Nat)) (pidOk : Bool)
    (planted : Option String) (refs : List Ref) : Option (List Ref) :=
  match planted with
  | some s =>
      if pidOk then
        mapO (fun c => (lookupA pid ⟨[c]⟩).map Ref.part) s.data
      else if s == "" then some [] else none
  | none =>
      if pidOk then resolveRefs pid refs
      else if refs.isEmpty then some [] else none

/-- `RealizedPart.resolve_links`: replace every reference field's content
by the part found under it in the part-by-id dict.  The method call
itself fails if an unrecognized key planted a string under
`resolve_links`; `pid = self.ship.part` fails if a string was planted
under `ship`; the `attachments.items()` loop fails if `attachments` was
overwritten by a string (strings have no `items`), and with a clobbered
`ship.part` its lookups fail unless the dict is empty.  A reference-list
attribute the pass has consumed holds a list again afterwards, so its
planted-string record is dropped. -/
def RealizedPart.resolve_links (pid : List (String × Nat)) (pidOk : Bool)
    (p : RealizedPart) : Option RealizedPart :=
  if (lookupA p.extra "resolve_links").isSome then none
  else if (lookupA p.extra "ship").isSome then none
  else if (lookupA p.extra "attachments").isSome then none
  else
    match resolveList pid pidOk (lookupA p.extra "links") p.links,
          resolveList pid pidOk (lookupA p.extra "surface_attachments")
            p.surface_attachments,
          resolveList pid pidOk (lookupA p.extra "sym") p.sym,
          (if pidOk then resolveAtt pid p.attachments
           else if p.attachments.isEmpty then some [] else none) with
    | some l, some sa, some sy, some at2 =>
        some { p with links := l, surface_attachments := sa, sym := sy,
                      attachments := at2,
                      extra := eraseA (eraseA (eraseA p.extra "links")
                                "surface_attachments") "sym" }
    | _, _, _, _ => none

/-! ### Stage construction -/

/-- Indices of the parts whose `istg` equals the given stage ordinal, in
part-sequence order (the contents of the `istg` grouping dict). -/
def ignIdx (parts : List RealizedPart) (k : Nat) : List Nat :=
  (List.range parts.length).filter
    (fun j => ((parts.get? j).bind (fun p => p.istg)) == some (k : Int))

/-- Indices of the parts whose `dstg` equals the given stage ordinal. -/
def detIdx (parts : List RealizedPart) (k : Nat) : List Nat :=
  (List.range parts.length).filter
    (fun j => ((parts.get? j).bind (fun p => p.dstg)) == some (k : Int))

/-- The stage built for ordinal `k`. -/
def mkStage (parts : List RealizedPart) (k : Nat) : Stage :=
  ⟨k, ignIdx parts k, detIdx parts k, []⟩

/-- `[Stage(self, s, ...) for s in xrange(stage_count)]`. -/
def stageBuild (parts : List RealizedPart) (n : Nat) : List Stage :=
  (List.range n).map (mkStage parts)

/-- `Ship.resolve_links`: resolve every part, group by `istg`/`dstg`/`sqor`
(reading a stage attribute that was never set raises), compute
`stage_count = max(max(istg.keys()), max(dstg.keys())) + 1` (raising on a
ship with no parts), and build the stage sequence.  The method call
`ship.resolve_links()` finds a planted string instead of the method if an
unrecognized ship-scope key was named `resolve_links`; iterating
`self.parts` fails if a string was planted under `parts`; and the
per-part passes read `self.ship.part`, a raw string rather than the dict
if a ship-scope key `part` was skipped into the instance (`pidOk`). -/
def Ship.resolve_links (s : Ship) : Option Ship :=
  if (lookupA s.attrs "resolve_links").isSome then none
  else if (lookupA s.attrs "parts").isSome then none
  else
    match mapO (RealizedPart.resolve_links s.partIdx
                  (lookupA s.attrs "part" == none)) s.parts with
    | none => none
    | some parts2 =>
        if parts2.all sqorHas then
          match mapO istgGet parts2, mapO dstgGet parts2 with
          | some istgs, some dstgs =>
              match maxOf? istgs, maxOf? dstgs with
              | some mi, some md =>
                  some { s with parts := parts2,
                                stages := stageBuild parts2 (Int.toNat (max mi md + 1)) }
              | _, _ => none
          | _, _ => none
        else none

/-! ### Ship parsing (first pass) -/

/-- Parser state of `Ship.load`'s line loop: the ship under construction,
the current scope (`none` is ship scope, `some i` the part at index `i`),
and the diagnostic registry. -/
structure ShipState : Type where
  attrs : List (String × String)
  parts : List RealizedPart
  partIdx : List (String × Nat)
  cur : Option Nat
  reg : SkipReg
deriving Repr

/-- `value.split('_', 1)` into exactly two pieces. -/
def splitUnderscore1 (s : String) : Option (String × String) :=
  match splitCh '_' s with
  | [_] => none
  | [] => none
  | a :: rest => some (a, joinCh '_' rest)

/-- `value.split(',')` unpacked into exactly two pieces. -/
def splitComma2 (s : String) : Option (String × String) :=
  match splitCh ',' s with
  | [a, b] => some (a, b)
  | _ => none

/-- Store an updated current part back into the state. -/
def setP (st : ShipState) (i : Nat) (p : RealizedPart) : Option ShipState :=
  some { st with parts := st.parts.set i p }

/-- `setattr(self, key, value)` of `read_skip` on a `RealizedPart`: the
raw string joins the instance dict (`extra`).  A key naming a typed field
leaves that attribute holding the raw string: `part_id` is string-valued
so it holds the value itself, while a `part_type` string fails every
later attribute access exactly as the initial `None` does, modelled by
resetting it to `none`; the remaining typed fields keep their last typed
value, and every reader of them consults `extra` first. -/
def partSkipSet (p : RealizedPart) (k v : String) : RealizedPart :=
  { p with extra := insertA p.extra k v,
           part_type := if k == "part_type" then none else p.part_type,
           part_id := if k == "part_id" then some v else p.part_id }

/-- `read_skip` on the current part: store the raw value on the part and
register the pair in `SKIPPED_KEYS`. -/
def partSkip (st : ShipState) (i : Nat) (p : RealizedPart) (k v : String) :
    Option ShipState :=
  some { st with parts := st.parts.set i (partSkipSet p k v),
                 reg := st.reg ++ [(k, Entity.shipPart i, v)] }

/-- The class-level `read_*` handlers of `RealizedPart`, reached when the
key is not shadowed on the instance.  `read_part` reads
`self.ship.part_library` and writes `self.ship.part[value]`, both failing
if the respective ship attribute was overwritten by a raw string;
`read_part` also reads `self.ship`, failing if a string was planted under
`ship`; the appending handlers fail if their list attribute was
overwritten; the key `attribute` denotes `read_attribute` itself, which
would self-dispatch forever in the source, hence fails; a key with no
handler takes the `read_skip` path. -/
def shipPartClassKV (lib : PartLib) (st : ShipState) (i : Nat)
    (p : RealizedPart) (k v : String) : Option ShipState :=
  if k == "part" then
    match splitUnderscore1 v with
    | none => none
    | some (tyName, _) =>
        if (lookupA p.extra "ship").isSome then none
        else if (lookupA st.attrs "part_library").isSome then none
        else
          match lib tyName with
          | none => none
          | some pt =>
              if (lookupA st.attrs "part").isSome then none
              else
                some { st with
                  parts := st.parts.set i
                    { p with part_type := some pt, part_id := some v,
                             extra := insertA (eraseA (eraseA p.extra "part_id")
                                       "part_type") "part" v },
                  partIdx := insertA st.partIdx v i }
  else if k == "sym" then
    if (lookupA p.extra "sym").isSome then none
    else setP st i { p with sym := p.sym ++ [Ref.ident v] }
  else if k == "attN" then
    match splitComma2 v with
    | none => none
    | some (locn, pid) =>
        if (lookupA p.extra "attachments").isSome then none
        else setP st i { p with attachments := insertA p.attachments (strTrim locn) (Ref.ident (strTrim pid)) }
  else if k == "srfN" then
    match splitComma2 v with
    | none => none
    | some (_, pid) =>
        if (lookupA p.extra "surface_attachments").isSome then none
        else setP st i { p with surface_attachments := p.surface_attachments ++ [Ref.ident (strTrim pid)] }
  else if k == "link" then
    if (lookupA p.extra "links").isSome then none
    else setP st i { p with links := p.links ++ [Ref.ident (strTrim v)] }
  else if k == "cData" then some st
  else if k == "pos" then
    match applyReader .floatList v with
    | some (.floatList l) => setP st i { p with pos := some l }
    | _ => none
  else if k == "rot" then
    match applyReader .floatList v with
    | some (.floatList l) => setP st i { p with rot := some l }
    | _ => none
  else if k == "istg" then
    match parseInt? v with
    | some n => setP st i { p with istg := some n }
    | none => none
  else if k == "dstg" then
    match parseInt? v with
    | some n => setP st i { p with dstg := some n }
    | none => none
  else if k == "sidx" then
    match parseInt? v with
    | some n => setP st i { p with sidx := some n }
    | none => none
  else if k == "sqor" then
    match parseInt? v with
    | some n => setP st i { p with sqor := some n }
    | none => none
  else if k == "attm" then
    match parseInt? v with
    | some n => setP st i { p with attm := some n }
    | none => none
  else if k == "attribute" then none
  else partSkip st i p k v

/-- Dispatch of one `key = value` line on the current `RealizedPart`
(`read_generic` over the part's `read_*` methods).  The call
`part.read_attribute(key, val)` itself fails on a planted
`read_attribute` string; `getattr(part, 'read_' + key)` consults the
instance dict (`extra`) before the class, so a planted non-empty string
is called and raises `TypeError`, a planted empty string is falsy and
falls through to `read_skip`, and only an unshadowed key reaches its
class handler. -/
def shipPartKV (lib : PartLib) (st : ShipState) (i : Nat) (p : RealizedPart)
    (k v : String) : Option ShipState :=
  if (lookupA p.extra "read_attribute").isSome then none
  else
    match lookupA p.extra ("read_" ++ k) with
    | some setter =>
        if setter == "" then partSkip st i p k v else none
    | none => shipPartClassKV lib st i p k v

/-- Dispatch of one `key = value` line at the current scope.  At ship
scope the call and the `getattr` likewise consult the ship's instance
dict (`attrs`) first; unshadowed, the class handlers `read_ship` and
`read_version` store strings, the key `attribute` self-dispatches forever
(fails), and any other key takes the `read_skip` path — `setattr` on the
ship, where the keys `part`, `parts`, `part_library` and `resolve_links`
overwrite the live part-by-id dict, part list, catalog and method that
later reads consult. -/
def shipKV (lib : PartLib) (st : ShipState) (k v : String) : Option ShipState :=
  match st.cur with
  | none =>
      if (lookupA st.attrs "read_attribute").isSome then none
      else
        match lookupA st.attrs ("read_" ++ k) with
        | some setter =>
            if setter == "" then
              some { st with attrs := insertA st.attrs k v,
                             reg := st.reg ++ [(k, Entity.shipLevel, v)] }
            else none
        | none =>
            if k == "ship" || k == "version" then
              some { st with attrs := insertA st.attrs k v }
            else if k == "attribute" then none
            else
              some { st with attrs := insertA st.attrs k v,
                             reg := st.reg ++ [(k, Entity.shipLevel, v)] }
  | some i =>
      match st.parts.get? i with
      | none => none
      | some p => shipPartKV lib st i p k v

/-- One line of `Ship.load`'s loop: strip; skip blank and comment lines; a
`}`-prefixed line returns focus to the ship; a `{`-prefixed line appends a
fresh `RealizedPart` (its `__init__` runs immediately, calling
`ship.parts.append`, which fails if `parts` was overwritten by a raw
string) and focuses it; any other line must unpack as `key = value`. -/
def shipStep (lib : PartLib) (st : ShipState) (rawLn : String) :
    Option ShipState :=
  let ln := strTrim rawLn
  if ln == "" then some st
  else if strStartsWith ln "//" then some st
  else if strStartsWith ln "\x7d" then some { st with cur := none }
  else if strStartsWith ln "\x7b" then
    if (lookupA st.attrs "parts").isSome then none
    else
      some { st with parts := st.parts ++ [RealizedPart.init],
                     cur := some st.parts.length }
  else
    match splitKV ln with
    | none => none
    | some (k, v) => shipKV lib st k v

/-- The whole line loop. -/
def shipLines (lib : PartLib) : List String → ShipState → Option ShipState
  | [], st => some st
  | ln :: rest, st =>
      match shipStep lib st ln with
      | none => none
      | some st' => shipLines lib rest st'

/-- `Ship.load` on file content: run the line loop from a fresh ship
(`Ship.__init__` seeds `ship = ''`), then run the resolution pass. -/
def Ship.load (text : String) (lib : PartLib) (reg : SkipReg) :
    Option (Ship × SkipReg) :=
  match shipLines lib (splitCh '\n' text) ⟨[("ship", "")], [], [], none, reg⟩ with
  | none => none
  | some st =>
      match Ship.resolve_links ⟨st.attrs, st.parts, st.partIdx, []⟩ with
      | none => none
      | some sh => some (sh, st.reg)

/-! ### Stage queries -/

/-- Sum of `p.part_type.mass` over a stage's ignition list; reading the
attribute fails if the part has no part type or no numeric mass. -/
def stageMassSum (parts : List RealizedPart) : List Nat → Option PyFloat
  | [] => some pfZero
  | j :: rest =>
      match ((parts.get? j).bind (fun p => p.part_type)).bind massOf,
            stageMassSum parts rest with
      | some m, some r => some (pfAdd m r)
      | _, _ => none

/-- The accumulation loop of `Stage.mass` over the retained stages. -/
def massLoop (parts : List RealizedPart) : List Stage → Option PyFloat
  | [] => some pfZero
  | st :: rest =>
      match stageMassSum parts st.ignition, massLoop parts rest with
      | some a, some b => some (pfAdd a b)
      | _, _ => none

/-- `Stage.mass`: walk the ship's stages, stopping (`break`) at the first
stage with a larger ordinal, and sum the ignited parts' masses. -/
def Stage.mass (sh : Ship) (st : Stage) : Option PyFloat :=
  massLoop sh.parts
    (sh.stages.takeWhile (fun s2 => decide (s2.stage_num ≤ st.stage_num)))

/-- Keep the indices whose part's `part_type.is_engine()` is true; reading
the part type of a part that never read a `part` key fails. -/
def engineFilter (parts : List RealizedPart) : List Nat → Option (List Nat)
  | [] => some []
  | j :: rest =>
      match (parts.get? j).bind (fun p => p.part_type) with
      | none => none
      | some pt =>
          match engineFilter parts rest with
          | none => none
          | some l => some (if isEngineOf pt then j :: l else l)

/-- `dict.update((p, 1) for p in new)`: append the unseen keys in order. -/
def addNew (acc : List Nat) : List Nat → List Nat
  | [] => acc
  | j :: rest => addNew (if acc.contains j then acc else acc ++ [j]) rest

/-- The accumulation loop of `Stage.available_thrusters` over
`self.ship.stages[self.stage_num:]`, building the `ignited` and `detached`
dicts. -/
def availLoop (parts : List RealizedPart) :
    List Stage → List Nat → List Nat → Option (List Nat × List Nat)
  | [], ign, det => some (ign, det)
  | st :: rest, ign, det =>
      match engineFilter parts st.ignition, engineFilter parts st.detach with
      | some ie, some de => availLoop parts rest (addNew ign ie) (addNew det de)
      | _, _ => none

/-- `Stage.available_thrusters`: ignited engines of this and later stages
minus detached engines of this and later stages. -/
def Stage.available_thrusters (sh : Ship) (st : Stage) : Option (List Nat) :=
  match availLoop sh.parts (sh.stages.drop st.stage_num) [] [] with
  | none => none
  | some (ign, det) => some (ign.filter (fun j => !det.contains j))

/-- All reference-field contents of a realized part: links, surface
attachments, symmetry siblings, and the attachment-node mapping's
values. -/
def refsOf (p : RealizedPart) : List Ref :=
  p.links ++ p.surface_attachments ++ p.sym ++ p.attachments.map (fun a => a.2)

/-- Stated from the spec's invariant: the maximum over all parts of the
ignition-stage and detach-stage indices (`none` on a ship with no
parts). -/
def specMaxStage (parts : List RealizedPart) : Option Int :=
  maxOf? (parts.map (fun p => max (p.istg.getD 0) (p.dstg.getD 0)))

/-- The ignition-stage index of the part at an index (0 when absent; the
theorems' hypotheses keep it defined). -/
def istgD (parts : List RealizedPart) (j : Nat) : Int :=
  ((parts.get? j).bind (fun p => p.istg)).getD 0

/-- The detach-stage index of the part at an index. -/
def dstgD (parts : List RealizedPart) (j : Nat) : Int :=
  ((parts.get? j).bind (fun p => p.dstg)).getD 0

/-- The catalog mass of the part at an index (0 when absent). -/
def massD (parts : List RealizedPart) (j : Nat) : PyFloat :=
  (((parts.get? j).bind (fun p => p.part_type)).bind massOf).getD pfZero

/-- Whether the part at an index is an engine (false when untyped). -/
def isEngineAt (parts : List RealizedPart) (j : Nat) : Bool :=
  (((parts.get? j).bind (fun p => p.part_type)).map isEngineOf).getD false

/-- Stated from the spec: the sum of PartType mass over all parts whose
ignition-stage index is at most the queried stage ordinal. -/
def specMassSum (parts : List RealizedPart) (s : Nat) : PyFloat :=
  pfSum (((List.range parts.length).filter
    (fun j => decide (istgD parts j ≤ (s : Int)))).map (massD parts))

/-- The key/value content a line contributes to the values mapping, if any
(strip, comment test, separator split — the scanning logic of
`Part.load`). -/
def parseKVLine (ln : String) : Option (String × String) :=
  let t := strTrim ln
  if strStartsWith t "//" then none else splitKV t

/-- The value of the last non-comment `k = v` line for a given key. -/
def lastVal (k : String) : List String → Option String
  | [] => none
  | ln :: rest =>
      match lastVal k rest with
      | some v => some v
      | none =>
          match parseKVLine ln with
          | some kv => if kv.1 == k then some kv.2 else none
          | none => none

/-- The keys for which a `RealizedPart` declares an explicit `read_*`
method (including `read_attribute` itself). -/
def shipPartHandled (k : String) : Bool :=
  k == "part" || k == "sym" || k == "attN" || k == "srfN" || k == "link" ||
  k == "cData" || k == "pos" || k == "rot" || k == "istg" || k == "dstg" ||
  k == "sidx" || k == "sqor" || k == "attm" || k == "attribute"

/-! ## Concrete fixtures -/

/-- A liquid-engine catalog entry named `A` with mass 10. -/
def partDefA : Part :=
  ⟨"LiquidEngine", [],
   [("name", AttrValue.str "A"), ("fuelCrossFeed", AttrValue.bool false),
    ("mass", AttrValue.float ⟨10, 1⟩)]⟩

/-- A fuel-tank catalog entry named `B` with mass 20. -/
def partDefB : Part :=
  ⟨"FuelTank", [],
   [("name", AttrValue.str "B"), ("fuelCrossFeed", AttrValue.bool false),
    ("mass", AttrValue.float ⟨20, 1⟩)]⟩

/-- A catalog holding the two entries above. -/
def libAB : PartLib := fun n =>
  if n == "A" then some partDefA else if n == "B" then some partDefB else none

/-- A ship whose first block references `A_2`, declared only in the second
block (a forward reference). -/
def shipTextFwd : String :=
  "\x7b\npart = A_1\nistg = 0\ndstg = 0\nsqor = 0\nsym = A_2\n\x7d\n\x7b\npart = A_2\nistg = 0\ndstg = 0\nsqor = 0\n\x7d"

/-- A minimal well-formed one-part ship. -/
def shipTextOk : String := "\x7b\npart = A_1\nistg = 0\ndstg = 0\nsqor = 0\n\x7d"

/-- The same ship with a stray line lacking a separator. -/
def shipTextStray : String := shipTextOk ++ "\ngarbage"

/-- The spec's staging example: engine A ignites at stage 0, tank B ignites
at stage 1 and detaches at stage 2. -/
def shipTextAB : String :=
  "\x7b\npart = A_1\nistg = 0\ndstg = 0\nsqor = 0\n\x7d\n\x7b\npart = B_2\nistg = 1\ndstg = 2\nsqor = 1\n\x7d"

/-- Two engines pinning the detach boundary of `available_thrusters`:
both ignite at stage 2; the first was detached at stage 0 already, the
second detaches at stage 2 itself. -/
def shipTextEng : String :=
  "\x7b\npart = A_1\nistg = 2\ndstg = 0\nsqor = 0\n\x7d\n\x7b\npart = A_2\nistg = 2\ndstg = 2\nsqor = 1\n\x7d"

/-- A well-formed one-part ship whose block also carries the unrecognized
key `read_weird`: `read_skip` stores it on the part, where it shadows the
dispatch of the key `weird`. -/
def shipTextHijackBase : String :=
  "\x7b\npart = A_1\nistg = 0\ndstg = 0\nsqor = 0\nread_weird = a\n\x7d"

/-- The same ship with one more unrecognized key line, `weird = b`, whose
dispatch finds the planted string `a` and calls it. -/
def shipTextHijack : String :=
  "\x7b\npart = A_1\nistg = 0\ndstg = 0\nsqor = 0\nread_weird = a\nweird = b\n\x7d"

/-- A ship whose first brace block has no `part` key. -/
def shipTextNoId : String :=
  "\x7b\nistg = 0\ndstg = 0\nsqor = 0\n\x7d\n\x7b\npart = A_1\nistg = 0\ndstg = 0\nsqor = 0\n\x7d"

/-- A resolved one-part `RealizedPart` with no reference content. -/
def rpA1 : RealizedPart :=
  ⟨some partDefA, some "A_1", [], [], [], [], some 0, some 0, none, some 0,
   none, none, none, [("part", "A_1")]⟩

/-- A one-part ship before stage construction. -/
def shipPre : Ship := ⟨[("ship", "")], [rpA1], [("A_1", 0)], []⟩

/-- The same ship after resolution built its stage sequence. -/
def shipPost : Ship :=
  ⟨[("ship", "")], [rpA1], [("A_1", 0)], [⟨0, [0], [0], []⟩]⟩

/-- The realized tank `B_2` of `shipTextAB` after loading. -/
def rpB2 : RealizedPart :=
  ⟨some partDefB, some "B_2", [], [], [], [], some 1, some 2, none, some 1,
   none, none, none, [("part", "B_2")]⟩

/-- The loaded form of `shipTextAB`. -/
def shipABLit : Ship :=
  ⟨[("ship", "")], [rpA1, rpB2], [("A_1", 0), ("B_2", 1)],
   [⟨0, [0], [0], []⟩, ⟨1, [1], [], []⟩, ⟨2, [], [1], []⟩]⟩

/-- The first engine of `shipTextEng` after loading (detached at stage 0). -/
def rpE1 : RealizedPart :=
  ⟨some partDefA, some "A_1", [], [], [], [], some 2, some 0, none, some 0,
   none, none, none, [("part", "A_1")]⟩

/-- The second engine of `shipTextEng` (detaching at stage 2 itself). -/
def rpE2 : RealizedPart :=
  ⟨some partDefA, some "A_2", [], [], [], [], some 2, some 2, none, some 1,
   none, none, none, [("part", "A_2")]⟩

/-- The loaded form of `shipTextEng`. -/
def shipEngLit : Ship :=
  ⟨[("ship", "")], [rpE1, rpE2], [("A_1", 0), ("A_2", 1)],
   [⟨0, [], [0], []⟩, ⟨1, [], [], []⟩, ⟨2, [0, 1], [1], []⟩]⟩

/-- A part definition without a `module` key. -/
def badPartText : String := "name = noModuleHere"

/-- A loadable part definition. -/
def goodPartText : String := "module = FuelTank\nname = tank"

/-- A part definition with two `module` lines. -/
def partTextDupModule : String := "module = LiquidEngine\nmodule = FuelTank\nname = x"

/-! ## Helper lemmas about the dictionary and traversal primitives -/

theorem lookupA_insertA_self {α : Type} (m : List (String × α)) (k : String) (v : α) :
    lookupA (insertA m k v) k = some v := by
  induction m with
  | nil => simp [insertA, lookupA]
  | cons hd tl ih =>
      obtain ⟨k', v'⟩ := hd
      by_cases h : k' = k
      · simp [insertA, lookupA, h]
      · simp only [insertA, lookupA, beq_iff_eq, h, if_false]
        simpa [lookupA, h] using ih

theorem lookupA_insertA_ne {α : Type} (m : List (String × α)) (k k' : String) (v : α)
    (h : k' ≠ k) : lookupA (insertA m k v) k' = lookupA m k' := by
  induction m with
  | nil => simp [insertA, lookupA, Ne.symm h]
  | cons hd tl ih =>
      obtain ⟨k0, v0⟩ := hd
      by_cases h0 : k0 = k
      · subst h0
        simp [insertA, lookupA, Ne.symm h]
      · simp only [insertA, lookupA, beq_iff_eq, h0, if_false]
        by_cases h1 : k0 = k'
        · simp [lookupA, h1]
        · simp [lookupA, h1, ih]

theorem mem_insertA {α : Type} (m : List (String × α)) (k : String) (v : α)
    (pr : String × α) (h : pr ∈ insertA m k v) : pr ∈ m ∨ pr = (k, v) := by
  induction m with
  | nil => simp [insertA] at h; simp [h]
  | cons hd tl ih =>
      obtain ⟨k0, v0⟩ := hd
      by_cases h0 : k0 = k
      · simp only [insertA, beq_iff_eq, h0, if_true] at h
        rcases List.mem_cons.mp h with h1 | h1
        · right; exact h1
        · left; exact List.mem_cons_of_mem _ h1
      · simp only [insertA, beq_iff_eq, h0, if_false] at h
        rcases List.mem_cons.mp h with h1 | h1
        · left; simp [h1]
        · rcases ih h1 with h2 | h2
          · left; exact List.mem_cons_of_mem _ h2
          · right; exact h2

theorem mapO_length {α β : Type} (f : α → Option β) :
    ∀ (l : List α) (l' : List β), mapO f l = some l' → l'.length = l.length := by
  intro l
  induction l with
  | nil => intro l' h; simp [mapO] at h; simp [← h]
  | cons a rest ih =>
      intro l' h
      simp only [mapO] at h
      cases hfa : f a with
      | none => rw [hfa] at h; simp at h
      | some b =>
          rw [hfa] at h
          cases hrest : mapO f rest with
          | none => rw [hrest] at h; simp at h
          | some bs =>
              rw [hrest] at h
              simp only [Option.some.injEq] at h
              subst h
              simp [ih bs hrest]

theorem mapO_get? {α β : Type} (f : α → Option β) :
    ∀ (l : List α) (l' : List β), mapO f l = some l' →
      ∀ j : Nat, l'.get? j = (l.get? j).bind f := by
  intro l
  induction l with
  | nil =>
      intro l' h j
      simp only [mapO, Option.some.injEq] at h
      subst h
      simp
  | cons a rest ih =>
      intro l' h j
      simp only [mapO] at h
      cases hfa : f a with
      | none => rw [hfa] at h; simp at h
      | some b =>
          rw [hfa] at h
          cases hrest : mapO f rest with
          | none => rw [hrest] at h; simp at h
          | some bs =>
              rw [hrest] at h
              simp only [Option.some.injEq] at h
              subst h
              cases j with
              | zero => simp [hfa]
              | succ j' =>
                  simp only [List.get?_cons_succ]
                  exact ih bs hrest j'

theorem mapO_forall_isSome {α β : Type} (f : α → Option β) :
    ∀ (l : List α) (l' : List β), mapO f l = some l' →
      ∀ a ∈ l, (f a).isSome := by
  intro l
  induction l with
  | nil => intro l' _ a ha; simp at ha
  | cons x rest ih =>
      intro l' h a ha
      simp only [mapO] at h
      cases hfx : f x with
      | none => rw [hfx] at h; simp at h
      | some b =>
          rw [hfx] at h
          cases hrest : mapO f rest with
          | none => rw [hrest] at h; simp at h
          | some bs =>
              rcases List.mem_cons.mp ha with h1 | h1
              · subst h1; simp [hfx]
              · exact ih bs hrest a h1

theorem maxOf?_le : ∀ (l : List Int) (m : Int), maxOf? l = some m →
    ∀ x ∈ l, x ≤ m := by
  intro l
  induction l with
  | nil => intro m h; simp [maxOf?] at h
  | cons a rest ih =>
      intro m h x hx
      simp only [maxOf?] at h
      cases hrest : maxOf? rest with
      | none =>
          rw [hrest] at h
          simp only [Option.some.injEq] at h
          subst h
          cases rest with
          | nil => simp at hx; simp [hx]
          | cons b r2 => simp [maxOf?] at hrest; cases hr2 : maxOf? r2 <;> rw [hr2] at hrest <;> simp at hrest
      | some m0 =>
          rw [hrest] at h
          simp only [Option.some.injEq] at h
          subst h
          rcases List.mem_cons.mp hx with h1 | h1
          · subst h1; exact le_max_left _ _
          · exact le_trans (ih m0 hrest x h1) (le_max_right _ _)

theorem maxOf?_isSome : ∀ (a : Int) (l : List Int), (maxOf? (a :: l)).isSome := by
  intro a l
  induction l generalizing a with
  | nil => simp [maxOf?]
  | cons b rest ih =>
      simp only [maxOf?]
      have := ih b
      cases h : maxOf? (b :: rest) with
      | none => rw [h] at this; simp at this
      | some m => simp [maxOf?] at h ⊢; rw [h]; simp

/-! ## Claim C7: silent skipping of blank / comment / separator-less lines -/

/-- C7 counterexample: the claim says a line lacking the `=` separator is
silently skipped by the ship parser as well, but `shipTextStray` — a ship
that loads fine without the stray line `garbage` — fails to load with it:
the ship parser's tuple unpacking raises on such a line. -/
theorem c7_counterexample :
    Ship.load shipTextStray libAB [] = none ∧
    (Ship.load shipTextOk libAB []).isSome = true := by
  constructor
  · decide
  · decide

/-- C7 (amended): in the part parser every blank, comment-prefixed or
separator-less line is silently skipped and leaves the values mapping
unchanged; in the ship parser blank and comment lines are silently
skipped, but a non-brace line lacking the separator aborts the load. -/
theorem c7_line_skipping (ln : String) :
    ((strTrim ln = "" ∨ strStartsWith (strTrim ln) "//" = true ∨
        splitKV (strTrim ln) = none) →
      ∀ vs, partLineStep vs ln = vs) ∧
    ((strTrim ln = "" ∨ strStartsWith (strTrim ln) "//" = true) →
      ∀ lib st, shipStep lib st ln = some st) ∧
    (strTrim ln ≠ "" → strStartsWith (strTrim ln) "//" = false →
     strStartsWith (strTrim ln) "\x7d" = false →
     strStartsWith (strTrim ln) "\x7b" = false →
     splitKV (strTrim ln) = none →
      ∀ lib st, shipStep lib st ln = none) := by
  refine ⟨?_, ?_, ?_⟩
  · intro h vs
    rcases h with h | h | h
    · have e1 : strStartsWith "" "//" = false := rfl
      have e2 : splitKV "" = none := rfl
      simp [partLineStep, h, e1, e2]
    · simp [partLineStep, h]
    · by_cases hc : strStartsWith (strTrim ln) "//" = true
      · simp [partLineStep, hc]
      · simp [partLineStep, hc, h]
  · intro h lib st
    rcases h with h | h
    · simp [shipStep, h]
    · by_cases hb : strTrim ln == ""
      · simp [shipStep, hb]
      · simp [shipStep, hb, h]
  · intro h1 h2 h3 h4 h5 lib st
    have hb : (strTrim ln == "") = false := by
      simp [h1]
    simp [shipStep, hb, h2, h3, h4, h5]

/-- C7 witness: concrete instances of the amended claim — the part parser
skips the line `garbage`, the ship parser skips `  // note` and fails on
`garbage`. -/
theorem c7_witness :
    (∀ vs, partLineStep vs "garbage" = vs) ∧
    (∀ lib st, shipStep lib st "  // note" = some st) ∧
    (∀ lib st, shipStep lib st "garbage" = none) := by
  refine ⟨(c7_line_skipping "garbage").1 (by decide),
          (c7_line_skipping "  // note").2.1 (by decide),
          (c7_line_skipping "garbage").2.2 (by decide) (by decide) (by decide)
            (by decide) (by decide)⟩

/-! ## Claim C8: duplicate keys in a part definition -/

theorem partLineStep_parse (vs : List (String × String)) (ln : String)
    (kv : String × String) (h : parseKVLine ln = some kv) :
    partLineStep vs ln = insertA vs kv.1 kv.2 := by
  simp only [parseKVLine] at h
  by_cases hc : strStartsWith (strTrim ln) "//" = true
  · rw [if_pos hc] at h
    exact absurd h (by simp)
  · rw [if_neg hc] at h
    simp [partLineStep, hc, h]

theorem partLineStep_skip (vs : List (String × String)) (ln : String)
    (h : parseKVLine ln = none) : partLineStep vs ln = vs := by
  simp only [parseKVLine] at h
  by_cases hc : strStartsWith (strTrim ln) "//" = true
  · simp [partLineStep, hc]
  · rw [if_neg hc] at h
    simp [partLineStep, hc, h]

theorem read_attribute_module (p : Part) (reg : SkipReg) (k v : String)
    (p' : Part) (reg' : SkipReg)
    (h : Part.read_attribute p reg k v = some (p', reg')) :
    p'.module = p.module := by
  simp only [Part.read_attribute] at h
  by_cases h0 : (lookupA p.fields "read_attribute").isSome = true
  · rw [if_pos h0] at h
    exact absurd h (by simp)
  rw [if_neg h0] at h
  by_cases h1 : strStartsWith k "node_stack_" = true
  · rw [if_pos h1] at h
    by_cases hns : (lookupA p.fields "node_stack").isSome = true
    · rw [if_pos hns] at h
      exact absurd h (by simp)
    rw [if_neg hns] at h
    cases hal : applyReader Reader.floatList v with
    | none => rw [hal] at h; exact absurd h (by simp)
    | some av =>
        rw [hal] at h
        cases av with
        | floatList l =>
            simp only [Option.some.injEq, Prod.mk.injEq] at h
            obtain ⟨h2, h3⟩ := h
            subst h2
            rfl
        | str s => exact absurd h (by simp)
        | int i => exact absurd h (by simp)
        | float q => exact absurd h (by simp)
        | bool b => exact absurd h (by simp)
        | intList l => exact absurd h (by simp)
        | strList l => exact absurd h (by simp)
  · rw [if_neg h1] at h
    by_cases h2 : (strStartsWith k "fx_" || strStartsWith k "sound_") = true
    · rw [if_pos h2] at h
      simp only [Option.some.injEq, Prod.mk.injEq] at h
      obtain ⟨h3, h4⟩ := h
      subst h3
      rfl
    · rw [if_neg h2] at h
      cases hsh : lookupA p.fields ("read_" ++ k) with
      | some setter =>
          simp only [hsh] at h
          by_cases ht : setter.truthy = true
          · rw [if_pos ht] at h
            exact absurd h (by simp)
          · rw [if_neg ht] at h
            simp only [Option.some.injEq, Prod.mk.injEq] at h
            obtain ⟨h4, h5⟩ := h
            subst h4
            rfl
      | none =>
          simp only [hsh] at h
          by_cases h3 : (k == "attribute") = true
          · rw [if_pos h3] at h
            exact absurd h (by simp)
          · rw [if_neg h3] at h
            cases hh : partHandler p.module k with
            | some r =>
                cases hal : applyReader r v with
                | none => simp [hh, hal] at h
                | some val =>
                    simp only [hh, hal, Option.some.injEq, Prod.mk.injEq] at h
                    obtain ⟨h4, h5⟩ := h
                    subst h4
                    rfl
            | none =>
                simp only [hh, Option.some.injEq, Prod.mk.injEq] at h
                obtain ⟨h4, h5⟩ := h
                subst h4
                rfl

theorem partApplyAll_module :
    ∀ (kvs : List (String × String)) (p : Part) (reg : SkipReg)
      (p' : Part) (reg' : SkipReg),
      partApplyAll p reg kvs = some (p', reg') → p'.module = p.module := by
  intro kvs
  induction kvs with
  | nil => intro p reg p' reg' h; simp [partApplyAll] at h; simp [h.1]
  | cons kv rest ih =>
      intro p reg p' reg' h
      obtain ⟨k, v⟩ := kv
      simp only [partApplyAll] at h
      cases hra : Part.read_attribute p reg k v with
      | none => rw [hra] at h; simp at h
      | some pr =>
          rw [hra] at h
          obtain ⟨p1, reg1⟩ := pr
          have h1 := ih p1 reg1 p' reg' h
          rw [h1, read_attribute_module p reg k v p1 reg1 hra]

/-- C8 counterexample: the text `partTextDupModule` declares
`module = LiquidEngine` first and `module = FuelTank` second; the claim
says the first occurrence selects the variant, but the loaded part's
module is `FuelTank`. -/
theorem c8_counterexample :
    (Part.load partTextDupModule []).map (fun pr => pr.1.module) = some "FuelTank" ∧
    ("FuelTank" : String) ≠ "LiquidEngine" := by
  constructor
  · decide
  · decide

/-- C8 (amended): in the key-to-text mapping built by the part parser the
later occurrence of every duplicated key overwrites the earlier one (the
lookup of any key returns the last non-comment assignment), and the
variant is selected by the final value of `module` — i.e. also for
`module` the last occurrence wins, not the first. -/
theorem c8_last_write_wins :
    (∀ (lines : List String) (vs : List (String × String)) (k : String),
        lookupA (lines.foldl partLineStep vs) k =
          match lastVal k lines with
          | some v => some v
          | none => lookupA vs k) ∧
    (∀ (text : String) (p : Part) (reg reg' : SkipReg),
        Part.load text reg = some (p, reg') →
        lookupA (partParseValues text) "module" = some p.module) := by
  constructor
  · intro lines
    induction lines with
    | nil => intro vs k; simp [lastVal]
    | cons ln rest ih =>
        intro vs k
        simp only [List.foldl_cons]
        rw [ih (partLineStep vs ln) k]
        cases hrest : lastVal k rest with
        | some v => simp [lastVal, hrest]
        | none =>
            simp only [lastVal, hrest]
            cases hln : parseKVLine ln with
            | none => rw [partLineStep_skip vs ln hln]
            | some kv =>
                rw [partLineStep_parse vs ln kv hln]
                by_cases hk : kv.1 = k
                · subst hk
                  simp [lookupA_insertA_self]
                · simp only [beq_iff_eq, hk, if_false]
                  exact lookupA_insertA_ne vs kv.1 k kv.2 (Ne.symm hk)
  · intro text p reg reg' h
    simp only [Part.load] at h
    cases hm : lookupA (partParseValues text) "module" with
    | none => rw [hm] at h; simp at h
    | some m =>
        rw [hm] at h
        by_cases hk : partClassKnown m = true
        · simp only [hk, if_true] at h
          have := partApplyAll_module _ _ _ _ _ h
          rw [this]
        · simp [hk] at h

/-- C8 witness: for the duplicate-module fixture, looking up any key of
the values mapping yields the last assignment, and the selected module is
the mapping's final `module` value. -/
theorem c8_witness :
    lookupA ((splitCh '\n' partTextDupModule).foldl partLineStep []) "module" =
      (match lastVal "module" (splitCh '\n' partTextDupModule) with
       | some v => some v
       | none => lookupA ([] : List (String × String)) "module") ∧
    lookupA (partParseValues partTextDupModule) "module" = some "FuelTank" := by
  constructor
  · exact c8_last_write_wins.1 (splitCh '\n' partTextDupModule) [] "module"
  · have h : Part.load partTextDupModule [] =
        some (⟨"FuelTank", [],
               [("name", AttrValue.str "x"),
                ("fuelCrossFeed", AttrValue.bool false)]⟩, []) := by decide
    have := c8_last_write_wins.2 partTextDupModule _ [] [] h
    exact this

/-! ## Claim C9: do unrecognized keys ever abort a parse? -/

theorem retrieve_append_self (reg : SkipReg) (k : String) (e : Entity) (v : String) :
    retrieve (reg ++ [(k, e, v)]) k = retrieve reg k ++ [(e, v)] := by
  simp [retrieve]

theorem setP_partIdx (st : ShipState) (i : Nat) (q : RealizedPart) (st' : ShipState)
    (h : setP st i q = some st') : st'.partIdx = st.partIdx := by
  simp only [setP, Option.some.injEq] at h
  subst h
  rfl

/-- C9 counterexample: the claim says a key with no declared handler and
no recognized prefix never aborts the parse; but `shipTextHijack` — whose
block carries the unrecognized key `read_weird` and then the unrecognized
key `weird` — fails to load, while the same text without the `weird` line
loads fine: `read_skip` stored the string `a` under `read_weird` on the
part's instance, so dispatching `weird` finds that string instead of a
method and calling it raises `TypeError`. -/
theorem c9_counterexample :
    Ship.load shipTextHijack libAB [] = none ∧
    (Ship.load shipTextHijackBase libAB []).isSome = true := by
  constructor
  · decide
  · decide

/-- C9 (amended): a key with no declared handler and no structural or
ignorable prefix takes the `read_skip` path — the raw value is stored on
the entity under the key, and the pair is appended to the diagnostic
registry, retrievable under the literal key text — provided its dispatch
is not shadowed: `getattr` consults the instance dict first, so once an
earlier unrecognized key literally named `read_<key>` has planted a
truthy raw string, a later line with that key calls the string and the
parse aborts with `TypeError`.  Both directions are stated for the
part-definition parser and for the ship-scope and part-scope dispatch of
the ship parser. -/
theorem c9_unknown_key_dispatch :
    (∀ (p : Part) (reg : SkipReg) (k v : String),
        strStartsWith k "node_stack_" = false →
        strStartsWith k "fx_" = false →
        strStartsWith k "sound_" = false →
        k ≠ "attribute" →
        partHandler p.module k = none →
        lookupA p.fields "read_attribute" = none →
        lookupA p.fields ("read_" ++ k) = none →
        Part.read_attribute p reg k v =
          some ({ p with fields := insertA p.fields k (AttrValue.str v) },
                reg ++ [(k, Entity.partDef, v)]) ∧
        lookupA (insertA p.fields k (AttrValue.str v)) k = some (AttrValue.str v) ∧
        retrieve (reg ++ [(k, Entity.partDef, v)]) k =
          retrieve reg k ++ [(Entity.partDef, v)]) ∧
    (∀ (p : Part) (reg : SkipReg) (k v : String) (w : AttrValue),
        strStartsWith k "node_stack_" = false →
        strStartsWith k "fx_" = false →
        strStartsWith k "sound_" = false →
        lookupA p.fields "read_attribute" = none →
        lookupA p.fields ("read_" ++ k) = some w → w.truthy = true →
        Part.read_attribute p reg k v = none) ∧
    (∀ (lib : PartLib) (st : ShipState) (k v : String),
        st.cur = none → k ≠ "ship" → k ≠ "version" → k ≠ "attribute" →
        lookupA st.attrs "read_attribute" = none →
        lookupA st.attrs ("read_" ++ k) = none →
        shipKV lib st k v =
          some { st with attrs := insertA st.attrs k v,
                         reg := st.reg ++ [(k, Entity.shipLevel, v)] } ∧
        lookupA (insertA st.attrs k v) k = some v ∧
        retrieve (st.reg ++ [(k, Entity.shipLevel, v)]) k =
          retrieve st.reg k ++ [(Entity.shipLevel, v)]) ∧
    (∀ (lib : PartLib) (st : ShipState) (k v w : String),
        st.cur = none →
        lookupA st.attrs "read_attribute" = none →
        lookupA st.attrs ("read_" ++ k) = some w → w ≠ "" →
        shipKV lib st k v = none) ∧
    (∀ (lib : PartLib) (st : ShipState) (i : Nat) (p : RealizedPart) (k v : String),
        shipPartHandled k = false →
        lookupA p.extra "read_attribute" = none →
        lookupA p.extra ("read_" ++ k) = none →
        shipPartKV lib st i p k v =
          some { st with parts := st.parts.set i (partSkipSet p k v),
                         reg := st.reg ++ [(k, Entity.shipPart i, v)] } ∧
        lookupA (partSkipSet p k v).extra k = some v ∧
        retrieve (st.reg ++ [(k, Entity.shipPart i, v)]) k =
          retrieve st.reg k ++ [(Entity.shipPart i, v)]) ∧
    (∀ (lib : PartLib) (st : ShipState) (i : Nat) (p : RealizedPart)
        (k v w : String),
        lookupA p.extra "read_attribute" = none →
        lookupA p.extra ("read_" ++ k) = some w → w ≠ "" →
        shipPartKV lib st i p k v = none) := by
  refine ⟨?_, ?_, ?_, ?_, ?_, ?_⟩
  · intro p reg k v h1 h2 h3 h4 h5 h6 h7
    refine ⟨?_, lookupA_insertA_self _ _ _, retrieve_append_self _ _ _ _⟩
    simp [Part.read_attribute, h1, h2, h3, h4, h5, h6, h7]
  · intro p reg k v w h1 h2 h3 h6 h7 ht
    simp [Part.read_attribute, h1, h2, h3, h6, h7, ht]
  · intro lib st k v hc h1 h2 h3 h6 h7
    refine ⟨?_, lookupA_insertA_self _ _ _, retrieve_append_self _ _ _ _⟩
    simp [shipKV, hc, h1, h2, h3, h6, h7]
  · intro lib st k v w hc h6 h7 hw
    simp [shipKV, hc, h6, h7, hw]
  · intro lib st i p k v hk h6 h7
    simp only [shipPartHandled, Bool.or_eq_false_iff, beq_eq_false_iff_ne] at hk
    obtain ⟨⟨⟨⟨⟨⟨⟨⟨⟨⟨⟨⟨⟨n1, n2⟩, n3⟩, n4⟩, n5⟩, n6⟩, n7⟩, n8⟩, n9⟩, n10⟩, n11⟩, n12⟩, n13⟩, n14⟩ := hk
    refine ⟨?_, ?_, retrieve_append_self _ _ _ _⟩
    · simp [shipPartKV, shipPartClassKV, partSkip, h6, h7,
            n1, n2, n3, n4, n5, n6, n7, n8, n9, n10, n11, n12, n13, n14]
    · simp only [partSkipSet]
      exact lookupA_insertA_self _ _ _
  · intro lib st i p k v w h6 h7 hw
    simp [shipPartKV, h6, h7, hw]

/-- C9 witness: the key `weird` is unknown to every dispatcher; with a
clean instance dict it is stored and registered on a fuel-tank part, the
ship scope and a part scope, while a previously planted `read_weird`
string makes the same dispatch abort in each of the three places. -/
theorem c9_witness :
    (Part.read_attribute ⟨"FuelTank", [], []⟩ [] "weird" "zig" =
        some (⟨"FuelTank", [], [("weird", AttrValue.str "zig")]⟩,
              [("weird", Entity.partDef, "zig")]) ∧
      retrieve [("weird", Entity.partDef, "zig")] "weird" = [(Entity.partDef, "zig")]) ∧
    Part.read_attribute ⟨"FuelTank", [], [("read_weird", AttrValue.str "a")]⟩
      [] "weird" "zig" = none ∧
    (shipKV libAB ⟨[], [], [], none, []⟩ "weird" "zag" =
        some ⟨[("weird", "zag")], [], [], none, [("weird", Entity.shipLevel, "zag")]⟩) ∧
    shipKV libAB ⟨[("read_weird", "a")], [], [], none, []⟩ "weird" "zag" = none ∧
    (shipPartKV libAB ⟨[], [RealizedPart.init], [], some 0, []⟩ 0 RealizedPart.init "weird" "zog" =
        some ⟨[], [{ RealizedPart.init with extra := [("weird", "zog")] }], [],
              some 0, [("weird", Entity.shipPart 0, "zog")]⟩) ∧
    shipPartKV libAB ⟨[], [RealizedPart.init], [], some 0, []⟩ 0
      { RealizedPart.init with extra := [("read_weird", "a")] } "weird" "zog" = none := by
  have h1 := (c9_unknown_key_dispatch.1 ⟨"FuelTank", [], []⟩ [] "weird" "zig"
    (by decide) (by decide) (by decide) (by decide) (by decide) (by decide) (by decide))
  have h2 := (c9_unknown_key_dispatch.2.1 ⟨"FuelTank", [], [("read_weird", AttrValue.str "a")]⟩
    [] "weird" "zig" (AttrValue.str "a")
    (by decide) (by decide) (by decide) (by decide) (by decide) (by decide))
  have h3 := (c9_unknown_key_dispatch.2.2.1 libAB ⟨[], [], [], none, []⟩ "weird" "zag"
    rfl (by decide) (by decide) (by decide) (by decide) (by decide))
  have h4 := (c9_unknown_key_dispatch.2.2.2.1 libAB ⟨[("read_weird", "a")], [], [], none, []⟩
    "weird" "zag" "a" rfl (by decide) (by decide) (by decide))
  have h5 := (c9_unknown_key_dispatch.2.2.2.2.1 libAB ⟨[], [RealizedPart.init], [], some 0, []⟩ 0
    RealizedPart.init "weird" "zog" (by decide) (by decide) (by decide))
  have h6 := (c9_unknown_key_dispatch.2.2.2.2.2 libAB ⟨[], [RealizedPart.init], [], some 0, []⟩ 0
    { RealizedPart.init with extra := [("read_weird", "a")] } "weird" "zog" "a"
    (by decide) (by decide) (by decide))
  exact ⟨⟨h1.1, h1.2.2⟩, h2, h3.1, h4, h5.1, h6⟩

/-! ## Claim C10: `{` appends a fresh part at once; only `part` indexes it -/

theorem strStartsWith_brace_facts (s : String)
    (h : strStartsWith s "\x7b" = true) :
    (s == "") = false ∧ strStartsWith s "//" = false ∧
    strStartsWith s "\x7d" = false := by
  simp only [strStartsWith, isLead] at h
  cases hd : s.data with
  | nil => rw [hd] at h; simp [isLead] at h
  | cons c rest =>
      rw [hd] at h
      simp only [isLead, Bool.and_eq_true, beq_iff_eq] at h
      obtain ⟨hc, -⟩ := h
      subst hc
      refine ⟨?_, ?_, ?_⟩
      · apply beq_eq_false_iff_ne.mpr
        intro he
        rw [he] at hd
        have h0 : ([] : List Char) = '{' :: rest := hd
        cases h0
      · simp [strStartsWith, hd, isLead]
      · simp [strStartsWith, hd, isLead]

theorem partSkip_partIdx (st : ShipState) (i : Nat) (p : RealizedPart)
    (k v : String) (st' : ShipState) (h : partSkip st i p k v = some st') :
    st'.partIdx = st.partIdx := by
  simp only [partSkip, Option.some.injEq] at h
  subst h
  rfl

/-- C10: a `{`-prefixed line appends a fresh `RealizedPart` to the ship's
part sequence at once — its constructor runs before any key/value line is
read (provided the ship's `parts` attribute still is the live list) — the
fresh part has no identifier and no part type, and at part scope no key
other than `part` ever inserts into the ship's part-by-id mapping: every
other dispatch leaves it unchanged. -/
theorem c10_brace_appends_fresh_part :
    (∀ (lib : PartLib) (st : ShipState) (ln : String),
        strStartsWith (strTrim ln) "\x7b" = true →
        lookupA st.attrs "parts" = none →
        shipStep lib st ln =
          some { st with parts := st.parts ++ [RealizedPart.init],
                         cur := some st.parts.length }) ∧
    (RealizedPart.init.part_id = none ∧ RealizedPart.init.part_type = none) ∧
    (∀ (lib : PartLib) (st : ShipState) (i : Nat) (p : RealizedPart)
        (k v : String) (st' : ShipState),
        k ≠ "part" → shipPartKV lib st i p k v = some st' →
        st'.partIdx = st.partIdx) := by
  refine ⟨?_, ⟨rfl, rfl⟩, ?_⟩
  · intro lib st ln h hp
    obtain ⟨e1, e2, e3⟩ := strStartsWith_brace_facts (strTrim ln) h
    simp only [shipStep]
    rw [if_neg (by simp [e1]), if_neg (by simp [e2]), if_neg (by simp [e3]),
        if_pos h, if_neg (by simp [hp])]
  · intro lib st i p k v st' hk h
    unfold shipPartKV at h
    by_cases e00 : (lookupA p.extra "read_attribute").isSome = true
    case pos => rw [if_pos e00] at h; exact Option.noConfusion h
    rw [if_neg e00] at h
    cases hsh : lookupA p.extra ("read_" ++ k) with
    | some setter =>
        simp only [hsh] at h
        by_cases ew : (setter == "") = true
        case pos =>
          rw [if_pos ew] at h
          exact partSkip_partIdx _ _ _ _ _ _ h
        case neg =>
          rw [if_neg ew] at h
          exact Option.noConfusion h
    | none =>
    simp only [hsh] at h
    unfold shipPartClassKV at h
    rw [if_neg (show ¬((k == "part") = true) by simp [hk])] at h
    by_cases e1 : (k == "sym") = true
    case pos =>
      rw [if_pos e1] at h
      by_cases eg : (lookupA p.extra "sym").isSome = true
      case pos => rw [if_pos eg] at h; exact Option.noConfusion h
      case neg => rw [if_neg eg] at h; exact setP_partIdx _ _ _ _ h
    rw [if_neg e1] at h
    by_cases e2 : (k == "attN") = true
    case pos =>
      rw [if_pos e2] at h
      cases hs : splitComma2 v with
      | none => rw [hs] at h; exact Option.noConfusion h
      | some pr =>
          obtain ⟨locn, pid⟩ := pr
          simp only [hs] at h
          by_cases eg : (lookupA p.extra "attachments").isSome = true
          case pos => rw [if_pos eg] at h; exact Option.noConfusion h
          case neg => rw [if_neg eg] at h; exact setP_partIdx _ _ _ _ h
    rw [if_neg e2] at h
    by_cases e3 : (k == "srfN") = true
    case pos =>
      rw [if_pos e3] at h
      cases hs : splitComma2 v with
      | none => rw [hs] at h; exact Option.noConfusion h
      | some pr =>
          obtain ⟨locn, pid⟩ := pr
          simp only [hs] at h
          by_cases eg : (lookupA p.extra "surface_attachments").isSome = true
          case pos => rw [if_pos eg] at h; exact Option.noConfusion h
          case neg => rw [if_neg eg] at h; exact setP_partIdx _ _ _ _ h
    rw [if_neg e3] at h
    by_cases e4 : (k == "link") = true
    case pos =>
      rw [if_pos e4] at h
      by_cases eg : (lookupA p.extra "links").isSome = true
      case pos => rw [if_pos eg] at h; exact Option.noConfusion h
      case neg => rw [if_neg eg] at h; exact setP_partIdx _ _ _ _ h
    rw [if_neg e4] at h
    by_cases e5 : (k == "cData") = true
    case pos =>
      rw [if_pos e5] at h
      have h2 := Option.some.inj h
      subst h2
      rfl
    rw [if_neg e5] at h
    by_cases e6 : (k == "pos") = true
    case pos =>
      rw [if_pos e6] at h
      cases ha : applyReader Reader.floatList v with
      | none => rw [ha] at h; exact Option.noConfusion h
      | some av =>
          rw [ha] at h
          cases av
          case floatList => exact setP_partIdx _ _ _ _ h
          all_goals exact Option.noConfusion h
    rw [if_neg e6] at h
    by_cases e7 : (k == "rot") = true
    case pos =>
      rw [if_pos e7] at h
      cases ha : applyReader Reader.floatList v with
      | none => rw [ha] at h; exact Option.noConfusion h
      | some av =>
          rw [ha] at h
          cases av
          case floatList => exact setP_partIdx _ _ _ _ h
          all_goals exact Option.noConfusion h
    rw [if_neg e7] at h
    by_cases e8 : (k == "istg") = true
    case pos =>
      rw [if_pos e8] at h
      cases hn : parseInt? v with
      | none => rw [hn] at h; exact Option.noConfusion h
      | some n => rw [hn] at h; exact setP_partIdx _ _ _ _ h
    rw [if_neg e8] at h
    by_cases e9 : (k == "dstg") = true
    case pos =>
      rw [if_pos e9] at h
      cases hn : parseInt? v with
      | none => rw [hn] at h; exact Option.noConfusion h
      | some n => rw [hn] at h; exact setP_partIdx _ _ _ _ h
    rw [if_neg e9] at h
    by_cases e10 : (k == "sidx") = true
    case pos =>
      rw [if_pos e10] at h
      cases hn : parseInt? v with
      | none => rw [hn] at h; exact Option.noConfusion h
      | some n => rw [hn] at h; exact setP_partIdx _ _ _ _ h
    rw [if_neg e10] at h
    by_cases e11 : (k == "sqor") = true
    case pos =>
      rw [if_pos e11] at h
      cases hn : parseInt? v with
      | none => rw [hn] at h; exact Option.noConfusion h
      | some n => rw [hn] at h; exact setP_partIdx _ _ _ _ h
    rw [if_neg e11] at h
    by_cases e12 : (k == "attm") = true
    case pos =>
      rw [if_pos e12] at h
      cases hn : parseInt? v with
      | none => rw [hn] at h; exact Option.noConfusion h
      | some n => rw [hn] at h; exact setP_partIdx _ _ _ _ h
    rw [if_neg e12] at h
    by_cases e13 : (k == "attribute") = true
    case pos => rw [if_pos e13] at h; exact Option.noConfusion h
    rw [if_neg e13] at h
    exact partSkip_partIdx _ _ _ _ _ _ h

/-- C10 witness: the opening brace appends the fresh part immediately, and
loading a ship whose first block has no `part` key yields a first part
with no identifier and no part type that is absent from the part-by-id
mapping. -/
theorem c10_witness :
    shipStep libAB ⟨[("ship", "")], [], [], none, []⟩ "\x7b" =
      some ⟨[("ship", "")], [RealizedPart.init], [], some 0, []⟩ ∧
    (Ship.load shipTextNoId libAB []).map
        (fun pr => (pr.1.parts.map (fun p => (p.part_id, p.part_type.isSome)),
                    pr.1.partIdx)) =
      some ([(none, false), (some "A_1", true)], [("A_1", 1)]) := by
  constructor
  · exact c10_brace_appends_fresh_part.1 libAB ⟨[("ship", "")], [], [], none, []⟩ "\x7b"
      (by decide) (by decide)
  · decide

/-! ## Claim C6: a failing input aborts the whole catalog batch -/

theorem badPart_load_none (reg : SkipReg) : Part.load badPartText reg = none := by
  have h : lookupA (partParseValues badPartText) "module" = none := by decide
  simp only [Part.load]
  rw [h]

/-- C6 counterexample: the claim says a hard failure (here: a missing
`module` key) aborts only that entry and the other inputs still appear in
the returned mapping; but `load_all` over a failing input followed by a
loadable one returns nothing at all, even though the second input loads
fine on its own. -/
theorem c6_counterexample :
    Part.load_all [badPartText, goodPartText] [] [] = none ∧
    (Part.load goodPartText []).isSome = true := by
  constructor
  · decide
  · decide

/-- C6 (amended): a hard failure on one input aborts the entire batch
load: whatever inputs precede or follow the failing one, `load_all`
returns nothing (the exception propagates out of the loop), so the inputs
after the failing one are never loaded. -/
theorem c6_batch_abort :
    ∀ (pre : List String) (t : String) (post : List String)
      (defs : List (String × Part)) (reg : SkipReg),
      (∀ reg0, Part.load t reg0 = none) →
      Part.load_all (pre ++ t :: post) defs reg = none := by
  intro pre
  induction pre with
  | nil =>
      intro t post defs reg h
      simp only [List.nil_append, Part.load_all]
      rw [h reg]
  | cons a pre' ih =>
      intro t post defs reg h
      simp only [List.cons_append, Part.load_all]
      cases ha : Part.load a reg with
      | none => rfl
      | some pr =>
          obtain ⟨p, reg'⟩ := pr
          exact ih t post _ _ h

/-- C6 witness: the amended claim at the concrete two-input batch. -/
theorem c6_witness : Part.load_all [badPartText, goodPartText] [] [] = none :=
  c6_batch_abort [] badPartText [goodPartText] [] [] badPart_load_none

/-! ## Claim C5: is resolution idempotent? -/

theorem eraseA_absent {α : Type} :
    ∀ (m : List (String × α)) (k : String), lookupA m k = none → eraseA m k = m := by
  intro m
  induction m with
  | nil => intro k _; rfl
  | cons hd tl ih =>
      intro k h
      obtain ⟨k0, v0⟩ := hd
      simp only [lookupA] at h
      by_cases h0 : (k0 == k) = true
      · rw [if_pos h0] at h; exact Option.noConfusion h
      · rw [if_neg h0] at h
        simp only [eraseA]
        rw [if_neg h0, ih k h]

theorem resolve_links_guards (pid : List (String × Nat)) (pidOk : Bool)
    (p : RealizedPart)
    (h : (RealizedPart.resolve_links pid pidOk p).isSome = true) :
    lookupA p.extra "resolve_links" = none ∧ lookupA p.extra "ship" = none ∧
    lookupA p.extra "attachments" = none := by
  simp only [RealizedPart.resolve_links] at h
  by_cases e4 : (lookupA p.extra "resolve_links").isSome = true
  · rw [if_pos e4] at h; simp at h
  rw [if_neg e4] at h
  by_cases e5 : (lookupA p.extra "ship").isSome = true
  · rw [if_pos e5] at h; simp at h
  rw [if_neg e5] at h
  by_cases e6 : (lookupA p.extra "attachments").isSome = true
  · rw [if_pos e6] at h; simp at h
  exact ⟨Option.not_isSome_iff_eq_none.mp (by simpa using e4),
         Option.not_isSome_iff_eq_none.mp (by simpa using e5),
         Option.not_isSome_iff_eq_none.mp (by simpa using e6)⟩

/-- Resolving a part with no reference content — empty reference lists,
and no raw string planted under any attribute the pass reads — is the
identity, whether or not the ship's part-by-id dict is intact. -/
theorem resolve_links_noop (pid : List (String × Nat)) (pidOk : Bool)
    (p : RealizedPart)
    (h1 : p.links = []) (h2 : p.surface_attachments = []) (h3 : p.sym = [])
    (h4 : p.attachments = [])
    (e1 : lookupA p.extra "links" = none)
    (e2 : lookupA p.extra "surface_attachments" = none)
    (e3 : lookupA p.extra "sym" = none)
    (e4 : lookupA p.extra "resolve_links" = none)
    (e5 : lookupA p.extra "ship" = none)
    (e6 : lookupA p.extra "attachments" = none) :
    RealizedPart.resolve_links pid pidOk p = some p := by
  have he : { p with links := ([] : List Ref),
                     surface_attachments := ([] : List Ref),
                     sym := ([] : List Ref),
                     attachments := ([] : List (String × Ref)),
                     extra := eraseA (eraseA (eraseA p.extra "links")
                               "surface_attachments") "sym" } = p := by
    rw [eraseA_absent _ _ e1, eraseA_absent _ _ e2, eraseA_absent _ _ e3]
    cases p
    simp_all
  simp only [RealizedPart.resolve_links, e1, e2, e3, e4, e5, e6, h1, h2, h3, h4]
  cases pidOk <;>
    simp only [resolveList, resolveRefs, resolveAtt, Option.isSome_none,
      Bool.false_eq_true, if_false, if_true, List.isEmpty_nil] <;>
    rw [he]

theorem mapO_id_of_noop {α : Type} (f : α → Option α) :
    ∀ l : List α, (∀ a ∈ l, f a = some a) → mapO f l = some l := by
  intro l
  induction l with
  | nil => intro _; rfl
  | cons a rest ih =>
      intro h
      simp only [mapO]
      rw [h a (List.mem_cons_self a rest),
          ih (fun b hb => h b (List.mem_cons_of_mem a hb))]

/-- C5 counterexample: the claim says re-running resolution on an
already-resolved ship is a no-op; but on the loaded forward-reference
ship — whose `sym` field now holds a resolved part — a second resolution
pass fails: the part-by-id dict is keyed by identifier strings and the
lookup of a resolved `RealizedPart` raises `KeyError`.  (No reference-type
check exists in the source.) -/
theorem c5_counterexample :
    (Ship.load shipTextFwd libAB []).map
        (fun pr => (Ship.resolve_links pr.1).isNone) = some true ∧
    (Ship.load shipTextFwd libAB []).isSome = true := by
  constructor
  · decide
  · decide

/-- C5 (amended): re-running resolution is a no-op only for a resolved
ship none of whose parts carries any reference content — no links, no
surface attachments, no symmetry siblings, no attachment nodes, and no
raw string planted by an unrecognized key under a reference-list
attribute; on such a ship the second pass succeeds and returns the ship
unchanged, stages included.  A ship with any resolved reference fails
instead. -/
theorem c5_resolve_idempotent_no_refs (s s' : Ship)
    (hrefs : ∀ p ∈ s.parts, p.links = [] ∧ p.surface_attachments = [] ∧
             p.sym = [] ∧ p.attachments = [] ∧
             lookupA p.extra "links" = none ∧
             lookupA p.extra "surface_attachments" = none ∧
             lookupA p.extra "sym" = none)
    (h : Ship.resolve_links s = some s') :
    Ship.resolve_links s' = some s' := by
  simp only [Ship.resolve_links] at h
  by_cases g1 : (lookupA s.attrs "resolve_links").isSome = true
  · rw [if_pos g1] at h; exact Option.noConfusion h
  rw [if_neg g1] at h
  by_cases g2 : (lookupA s.attrs "parts").isSome = true
  · rw [if_pos g2] at h; exact Option.noConfusion h
  rw [if_neg g2] at h
  cases hm : mapO (RealizedPart.resolve_links s.partIdx
      (lookupA s.attrs "part" == none)) s.parts with
  | none => simp only [hm] at h; exact Option.noConfusion h
  | some parts2 =>
      simp only [hm] at h
      have hnoop : ∀ p ∈ s.parts,
          RealizedPart.resolve_links s.partIdx
            (lookupA s.attrs "part" == none) p = some p := by
        intro p hp
        have hg := resolve_links_guards _ _ p
          (mapO_forall_isSome _ _ _ hm p hp)
        exact resolve_links_noop _ _ p (hrefs p hp).1 (hrefs p hp).2.1
          (hrefs p hp).2.2.1 (hrefs p hp).2.2.2.1
          (hrefs p hp).2.2.2.2.1 (hrefs p hp).2.2.2.2.2.1
          (hrefs p hp).2.2.2.2.2.2 hg.1 hg.2.1 hg.2.2
      have hmap : mapO (RealizedPart.resolve_links s.partIdx
          (lookupA s.attrs "part" == none)) s.parts = some s.parts :=
        mapO_id_of_noop _ _ hnoop
      have hpe : parts2 = s.parts := by
        rw [hm] at hmap
        exact Option.some.inj hmap
      subst hpe
      by_cases hq : s.parts.all sqorHas = true
      case neg => rw [if_neg hq] at h; exact Option.noConfusion h
      rw [if_pos hq] at h
      cases hI : mapO istgGet s.parts with
      | none => simp [hI] at h
      | some istgs =>
          cases hD : mapO dstgGet s.parts with
          | none => simp [hI, hD] at h
          | some dstgs =>
              simp only [hI, hD] at h
              cases hmi : maxOf? istgs with
              | none => simp [hmi] at h
              | some mi =>
                  cases hmd : maxOf? dstgs with
                  | none => simp [hmi, hmd] at h
                  | some md =>
                      simp only [hmi, hmd, Option.some.injEq] at h
                      subst h
                      simp only [Ship.resolve_links]
                      rw [if_neg g1, if_neg g2]
                      simp only [hm, hq, if_true, hI, hD, hmi, hmd]

/-- C5 witness: a concrete resolved one-part ship with no references
resolves to itself a second time. -/
theorem c5_witness :
    Ship.resolve_links shipPre = some shipPost ∧
    Ship.resolve_links shipPost = some shipPost := by
  constructor
  · decide
  · exact c5_resolve_idempotent_no_refs shipPre shipPost (by decide) (by decide)

/-! ## Claim C1: after a full parse, resolution leaves no identifier
strings and every reference is a part of the same ship -/

theorem lookupA_mem {α : Type} :
    ∀ (m : List (String × α)) (k : String) (v : α),
      lookupA m k = some v → (k, v) ∈ m := by
  intro m
  induction m with
  | nil => intro k v h; simp [lookupA] at h
  | cons hd tl ih =>
      intro k v h
      obtain ⟨k0, v0⟩ := hd
      simp only [lookupA, beq_iff_eq] at h
      by_cases h0 : k0 = k
      · rw [if_pos h0] at h
        obtain h := Option.some.inj h
        subst h
        subst h0
        exact List.mem_cons_self _ _
      · rw [if_neg h0] at h
        exact List.mem_cons_of_mem _ (ih k v h)

theorem mapO_mem_rev {α β : Type} (f : α → Option β) :
    ∀ (l : List α) (l' : List β), mapO f l = some l' →
      ∀ b ∈ l', ∃ a ∈ l, f a = some b := by
  intro l
  induction l with
  | nil =>
      intro l' h b hb
      simp only [mapO, Option.some.injEq] at h
      subst h
      simp at hb
  | cons a rest ih =>
      intro l' h b hb
      simp only [mapO] at h
      cases hfa : f a with
      | none => rw [hfa] at h; exact Option.noConfusion h
      | some b0 =>
          rw [hfa] at h
          cases hrest : mapO f rest with
          | none => rw [hrest] at h; exact Option.noConfusion h
          | some bs =>
              rw [hrest] at h
              obtain h := Option.some.inj h
              subst h
              rcases List.mem_cons.mp hb with h1 | h1
              · exact ⟨a, List.mem_cons_self _ _, by rw [hfa, h1]⟩
              · obtain ⟨a0, ha0, hfa0⟩ := ih bs hrest b h1
                exact ⟨a0, List.mem_cons_of_mem _ ha0, hfa0⟩

theorem setP_facts (st : ShipState) (i : Nat) (q : RealizedPart) (st' : ShipState)
    (h : setP st i q = some st') :
    st'.cur = st.cur ∧ st'.parts.length = st.parts.length ∧
    st'.partIdx = st.partIdx := by
  simp only [setP, Option.some.injEq] at h
  subst h
  exact ⟨rfl, by simp, rfl⟩

theorem partSkip_facts (st : ShipState) (i : Nat) (p : RealizedPart)
    (k v : String) (st' : ShipState) (h : partSkip st i p k v = some st') :
    st'.cur = st.cur ∧ st'.parts.length = st.parts.length ∧
    st'.partIdx = st.partIdx := by
  simp only [partSkip, Option.some.injEq] at h
  subst h
  exact ⟨rfl, by simp, rfl⟩

theorem shipPartKV_shape (lib : PartLib) (st : ShipState) (i : Nat)
    (p : RealizedPart) (k v : String) (st' : ShipState)
    (h : shipPartKV lib st i p k v = some st') :
    st'.cur = st.cur ∧ st'.parts.length = st.parts.length ∧
    ∀ pr ∈ st'.partIdx, pr ∈ st.partIdx ∨ pr = (v, i) := by
  unfold shipPartKV at h
  by_cases e00 : (lookupA p.extra "read_attribute").isSome = true
  case pos => rw [if_pos e00] at h; exact Option.noConfusion h
  rw [if_neg e00] at h
  cases hsh : lookupA p.extra ("read_" ++ k) with
  | some setter =>
      simp only [hsh] at h
      by_cases ew : (setter == "") = true
      case pos =>
        rw [if_pos ew] at h
        obtain ⟨a, b, c⟩ := partSkip_facts _ _ _ _ _ _ h
        exact ⟨a, b, fun pr hpr => Or.inl (c ▸ hpr)⟩
      case neg => rw [if_neg ew] at h; exact Option.noConfusion h
  | none =>
  simp only [hsh] at h
  unfold shipPartClassKV at h
  by_cases e0 : (k == "part") = true
  case pos =>
    rw [if_pos e0] at h
    cases hs : splitUnderscore1 v with
    | none => rw [hs] at h; exact Option.noConfusion h
    | some pr0 =>
        obtain ⟨ty, suf⟩ := pr0
        simp only [hs] at h
        by_cases eh1 : (lookupA p.extra "ship").isSome = true
        case pos => rw [if_pos eh1] at h; exact Option.noConfusion h
        rw [if_neg eh1] at h
        by_cases eh2 : (lookupA st.attrs "part_library").isSome = true
        case pos => rw [if_pos eh2] at h; exact Option.noConfusion h
        rw [if_neg eh2] at h
        cases hl : lib ty with
        | none => simp [hl] at h
        | some pt =>
            simp only [hl] at h
            by_cases eh3 : (lookupA st.attrs "part").isSome = true
            case pos => rw [if_pos eh3] at h; exact Option.noConfusion h
            rw [if_neg eh3] at h
            simp only [Option.some.injEq] at h
            subst h
            refine ⟨rfl, by simp, ?_⟩
            intro pr hpr
            exact mem_insertA _ _ _ _ hpr
  rw [if_neg e0] at h
  by_cases e1 : (k == "sym") = true
  case pos =>
    rw [if_pos e1] at h
    by_cases eg : (lookupA p.extra "sym").isSome = true
    case pos => rw [if_pos eg] at h; exact Option.noConfusion h
    rw [if_neg eg] at h
    obtain ⟨a, b, c⟩ := setP_facts _ _ _ _ h
    exact ⟨a, b, fun pr hpr => Or.inl (c ▸ hpr)⟩
  rw [if_neg e1] at h
  by_cases e2 : (k == "attN") = true
  case pos =>
    rw [if_pos e2] at h
    cases hs : splitComma2 v with
    | none => rw [hs] at h; exact Option.noConfusion h
    | some pr0 =>
        obtain ⟨locn, pidv⟩ := pr0
        simp only [hs] at h
        by_cases eg : (lookupA p.extra "attachments").isSome = true
        case pos => rw [if_pos eg] at h; exact Option.noConfusion h
        rw [if_neg eg] at h
        obtain ⟨a, b, c⟩ := setP_facts _ _ _ _ h
        exact ⟨a, b, fun pr hpr => Or.inl (c ▸ hpr)⟩
  rw [if_neg e2] at h
  by_cases e3 : (k == "srfN") = true
  case pos =>
    rw [if_pos e3] at h
    cases hs : splitComma2 v with
    | none => rw [hs] at h; exact Option.noConfusion h
    | some pr0 =>
        obtain ⟨locn, pidv⟩ := pr0
        simp only [hs] at h
        by_cases eg : (lookupA p.extra "surface_attachments").isSome = true
        case pos => rw [if_pos eg] at h; exact Option.noConfusion h
        rw [if_neg eg] at h
        obtain ⟨a, b, c⟩ := setP_facts _ _ _ _ h
        exact ⟨a, b, fun pr hpr => Or.inl (c ▸ hpr)⟩
  rw [if_neg e3] at h
  by_cases e4 : (k == "link") = true
  case pos =>
    rw [if_pos e4] at h
    by_cases eg : (lookupA p.extra "links").isSome = true
    case pos => rw [if_pos eg] at h; exact Option.noConfusion h
    rw [if_neg eg] at h
    obtain ⟨a, b, c⟩ := setP_facts _ _ _ _ h
    exact ⟨a, b, fun pr hpr => Or.inl (c ▸ hpr)⟩
  rw [if_neg e4] at h
  by_cases e5 : (k == "cData") = true
  case pos =>
    rw [if_pos e5] at h
    obtain h := Option.some.inj h
    subst h
    exact ⟨rfl, rfl, fun pr hpr => Or.inl hpr⟩
  rw [if_neg e5] at h
  by_cases e6 : (k == "pos") = true
  case pos =>
    rw [if_pos e6] at h
    cases ha : applyReader Reader.floatList v with
    | none => rw [ha] at h; exact Option.noConfusion h
    | some av =>
        rw [ha] at h
        cases av
        case floatList =>
          obtain ⟨a, b, c⟩ := setP_facts _ _ _ _ h
          exact ⟨a, b, fun pr hpr => Or.inl (c ▸ hpr)⟩
        all_goals exact Option.noConfusion h
  rw [if_neg e6] at h
  by_cases e7 : (k == "rot") = true
  case pos =>
    rw [if_pos e7] at h
    cases ha : applyReader Reader.floatList v with
    | none => rw [ha] at h; exact Option.noConfusion h
    | some av =>
        rw [ha] at h
        cases av
        case floatList =>
          obtain ⟨a, b, c⟩ := setP_facts _ _ _ _ h
          exact ⟨a, b, fun pr hpr => Or.inl (c ▸ hpr)⟩
        all_goals exact Option.noConfusion h
  rw [if_neg e7] at h
  by_cases e8 : (k == "istg") = true
  case pos =>
    rw [if_pos e8] at h
    cases hn : parseInt? v with
    | none => rw [hn] at h; exact Option.noConfusion h
    | some n =>
        rw [hn] at h
        obtain ⟨a, b, c⟩ := setP_facts _ _ _ _ h
        exact ⟨a, b, fun pr hpr => Or.inl (c ▸ hpr)⟩
  rw [if_neg e8] at h
  by_cases e9 : (k == "dstg") = true
  case pos =>
    rw [if_pos e9] at h
    cases hn : parseInt? v with
    | none => rw [hn] at h; exact Option.noConfusion h
    | some n =>
        rw [hn] at h
        obtain ⟨a, b, c⟩ := setP_facts _ _ _ _ h
        exact ⟨a, b, fun pr hpr => Or.inl (c ▸ hpr)⟩
  rw [if_neg e9] at h
  by_cases e10 : (k == "sidx") = true
  case pos =>
    rw [if_pos e10] at h
    cases hn : parseInt? v with
    | none => rw [hn] at h; exact Option.noConfusion h
    | some n =>
        rw [hn] at h
        obtain ⟨a, b, c⟩ := setP_facts _ _ _ _ h
        exact ⟨a, b, fun pr hpr => Or.inl (c ▸ hpr)⟩
  rw [if_neg e10] at h
  by_cases e11 : (k == "sqor") = true
  case pos =>
    rw [if_pos e11] at h
    cases hn : parseInt? v with
    | none => rw [hn] at h; exact Option.noConfusion h
    | some n =>
        rw [hn] at h
        obtain ⟨a, b, c⟩ := setP_facts _ _ _ _ h
        exact ⟨a, b, fun pr hpr => Or.inl (c ▸ hpr)⟩
  rw [if_neg e11] at h
  by_cases e12 : (k == "attm") = true
  case pos =>
    rw [if_pos e12] at h
    cases hn : parseInt? v with
    | none => rw [hn] at h; exact Option.noConfusion h
    | some n =>
        rw [hn] at h
        obtain ⟨a, b, c⟩ := setP_facts _ _ _ _ h
        exact ⟨a, b, fun pr hpr => Or.inl (c ▸ hpr)⟩
  rw [if_neg e12] at h
  by_cases e13 : (k == "attribute") = true
  case pos => rw [if_pos e13] at h; exact Option.noConfusion h
  rw [if_neg e13] at h
  obtain ⟨a, b, c⟩ := partSkip_facts _ _ _ _ _ _ h
  exact ⟨a, b, fun pr hpr => Or.inl (c ▸ hpr)⟩

theorem shipKV_bounds (lib : PartLib) (st : ShipState) (k v : String)
    (st' : ShipState) (h : shipKV lib st k v = some st')
    (hIdx : ∀ pr ∈ st.partIdx, pr.2 < st.parts.length)
    (hCur : ∀ c, st.cur = some c → c < st.parts.length) :
    (∀ pr ∈ st'.partIdx, pr.2 < st'.parts.length) ∧
    (∀ c, st'.cur = some c → c < st'.parts.length) := by
  simp only [shipKV] at h
  cases hc : st.cur with
  | none =>
      simp only [hc] at h
      by_cases g0 : (lookupA st.attrs "read_attribute").isSome = true
      · rw [if_pos g0] at h; exact Option.noConfusion h
      rw [if_neg g0] at h
      cases hsh : lookupA st.attrs ("read_" ++ k) with
      | some setter =>
          simp only [hsh] at h
          by_cases ew : (setter == "") = true
          · rw [if_pos ew] at h
            obtain h := Option.some.inj h
            subst h
            exact ⟨hIdx, fun c2 hc2 => Option.noConfusion hc2⟩
          · rw [if_neg ew] at h; exact Option.noConfusion h
      | none =>
          simp only [hsh] at h
          by_cases h1 : (k == "ship" || k == "version") = true
          · rw [if_pos h1] at h
            obtain h := Option.some.inj h
            subst h
            exact ⟨hIdx, fun c2 hc2 => Option.noConfusion hc2⟩
          · rw [if_neg h1] at h
            by_cases h2 : (k == "attribute") = true
            · rw [if_pos h2] at h; exact Option.noConfusion h
            · rw [if_neg h2] at h
              obtain h := Option.some.inj h
              subst h
              exact ⟨hIdx, fun c2 hc2 => Option.noConfusion hc2⟩
  | some i =>
      rw [hc] at h
      cases hp : st.parts.get? i with
      | none => simp only [hp] at h; exact Option.noConfusion h
      | some p =>
          simp only [hp] at h
          obtain ⟨hcur, hlen, hmem⟩ := shipPartKV_shape lib st i p k v st' h
          have hi : i < st.parts.length := hCur i hc
          constructor
          · intro pr hpr
            rw [hlen]
            rcases hmem pr hpr with h3 | h3
            · exact hIdx pr h3
            · rw [h3]; exact hi
          · intro c2 hc2
            rw [hlen]
            exact hCur c2 (by rw [← hc2, hcur, hc])

theorem shipStep_bounds (lib : PartLib) (st : ShipState) (ln : String)
    (st' : ShipState) (h : shipStep lib st ln = some st')
    (hIdx : ∀ pr ∈ st.partIdx, pr.2 < st.parts.length)
    (hCur : ∀ c, st.cur = some c → c < st.parts.length) :
    (∀ pr ∈ st'.partIdx, pr.2 < st'.parts.length) ∧
    (∀ c, st'.cur = some c → c < st'.parts.length) := by
  simp only [shipStep] at h
  by_cases e0 : (strTrim ln == "") = true
  case pos =>
    rw [if_pos e0] at h
    obtain h := Option.some.inj h
    subst h
    exact ⟨hIdx, hCur⟩
  rw [if_neg e0] at h
  by_cases e1 : strStartsWith (strTrim ln) "//" = true
  case pos =>
    rw [if_pos e1] at h
    obtain h := Option.some.inj h
    subst h
    exact ⟨hIdx, hCur⟩
  rw [if_neg e1] at h
  by_cases e2 : strStartsWith (strTrim ln) "\x7d" = true
  case pos =>
    rw [if_pos e2] at h
    obtain h := Option.some.inj h
    subst h
    exact ⟨hIdx, fun c hc => Option.noConfusion hc⟩
  rw [if_neg e2] at h
  by_cases e3 : strStartsWith (strTrim ln) "\x7b" = true
  case pos =>
    rw [if_pos e3] at h
    by_cases e4 : (lookupA st.attrs "parts").isSome = true
    case pos => rw [if_pos e4] at h; exact Option.noConfusion h
    rw [if_neg e4] at h
    obtain h := Option.some.inj h
    subst h
    constructor
    · intro pr hpr
      simp only [List.length_append, List.length_cons, List.length_nil]
      exact Nat.lt_succ_of_lt (hIdx pr hpr)
    · intro c hc
      obtain hc := Option.some.inj hc
      subst hc
      simp
  rw [if_neg e3] at h
  cases hs : splitKV (strTrim ln) with
  | none => rw [hs] at h; exact Option.noConfusion h
  | some kv =>
      rw [hs] at h
      obtain ⟨k0, v0⟩ := kv
      exact shipKV_bounds lib st k0 v0 st' h hIdx hCur

theorem shipLines_bounds (lib : PartLib) :
    ∀ (lines : List String) (st st' : ShipState),
      shipLines lib lines st = some st' →
      (∀ pr ∈ st.partIdx, pr.2 < st.parts.length) →
      (∀ c, st.cur = some c → c < st.parts.length) →
      (∀ pr ∈ st'.partIdx, pr.2 < st'.parts.length) := by
  intro lines
  induction lines with
  | nil =>
      intro st st' h hIdx _
      obtain h := Option.some.inj h
      subst h
      exact hIdx
  | cons ln rest ih =>
      intro st st' h hIdx hCur
      simp only [shipLines] at h
      cases hstep : shipStep lib st ln with
      | none => rw [hstep] at h; exact Option.noConfusion h
      | some st1 =>
          rw [hstep] at h
          obtain ⟨hIdx1, hCur1⟩ := shipStep_bounds lib st ln st1 hstep hIdx hCur
          exact ih st1 st' h hIdx1 hCur1

theorem resolveRefs_shape (pid : List (String × Nat)) :
    ∀ (refs refs' : List Ref), resolveRefs pid refs = some refs' →
      ∀ r ∈ refs', ∃ s i, lookupA pid s = some i ∧ r = Ref.part i := by
  intro refs
  induction refs with
  | nil =>
      intro refs' h r hr
      obtain h := Option.some.inj h
      subst h
      simp at hr
  | cons r0 rest ih =>
      intro refs' h r hr
      simp only [resolveRefs] at h
      cases hr0 : resolveRef pid r0 with
      | none => rw [hr0] at h; exact Option.noConfusion h
      | some i0 =>
          rw [hr0] at h
          cases hrest : resolveRefs pid rest with
          | none => rw [hrest] at h; exact Option.noConfusion h
          | some rest' =>
              rw [hrest] at h
              obtain h := Option.some.inj h
              subst h
              rcases List.mem_cons.mp hr with h1 | h1
              · subst h1
                cases r0 with
                | ident s => exact ⟨s, i0, hr0, rfl⟩
                | part j => simp [resolveRef] at hr0
              · exact ih rest' hrest r h1

theorem resolveAtt_shape (pid : List (String × Nat)) :
    ∀ (l l' : List (String × Ref)), resolveAtt pid l = some l' →
      ∀ pr ∈ l', ∃ s i, lookupA pid s = some i ∧ pr.2 = Ref.part i := by
  intro l
  induction l with
  | nil =>
      intro l' h pr hpr
      obtain h := Option.some.inj h
      subst h
      simp at hpr
  | cons a rest ih =>
      intro l' h pr hpr
      obtain ⟨locn, r0⟩ := a
      simp only [resolveAtt] at h
      cases hr0 : resolveRef pid r0 with
      | none => rw [hr0] at h; exact Option.noConfusion h
      | some i0 =>
          rw [hr0] at h
          cases hrest : resolveAtt pid rest with
          | none => rw [hrest] at h; exact Option.noConfusion h
          | some rest' =>
              rw [hrest] at h
              obtain h := Option.some.inj h
              subst h
              rcases List.mem_cons.mp hpr with h1 | h1
              · subst h1
                cases r0 with
                | ident s => exact ⟨s, i0, hr0, rfl⟩
                | part j => simp [resolveRef] at hr0
              · exact ih rest' hrest pr h1

theorem resolveList_shape (pid : List (String × Nat)) (pidOk : Bool)
    (planted : Option String) (refs l : List Ref)
    (h : resolveList pid pidOk planted refs = some l) :
    ∀ r ∈ l, ∃ s i, lookupA pid s = some i ∧ r = Ref.part i := by
  intro r hr
  cases planted with
  | some s =>
      simp only [resolveList] at h
      by_cases hp : pidOk = true
      · rw [if_pos hp] at h
        obtain ⟨c, hc, hfc⟩ := mapO_mem_rev _ _ _ h r hr
        cases hlc : lookupA pid ⟨[c]⟩ with
        | none => rw [hlc] at hfc; exact Option.noConfusion hfc
        | some i =>
            rw [hlc] at hfc
            simp only [Option.map_some'] at hfc
            exact ⟨⟨[c]⟩, i, hlc, (Option.some.inj hfc).symm⟩
      · rw [if_neg hp] at h
        by_cases he : (s == "") = true
        · rw [if_pos he] at h
          obtain h := Option.some.inj h
          subst h
          simp at hr
        · rw [if_neg he] at h
          exact Option.noConfusion h
  | none =>
      simp only [resolveList] at h
      by_cases hp : pidOk = true
      · rw [if_pos hp] at h
        exact resolveRefs_shape pid refs l h r hr
      · rw [if_neg hp] at h
        by_cases he : refs.isEmpty = true
        · rw [if_pos he] at h
          obtain h := Option.some.inj h
          subst h
          simp at hr
        · rw [if_neg he] at h
          exact Option.noConfusion h

theorem resolve_links_refs (pid : List (String × Nat)) (pidOk : Bool)
    (p p' : RealizedPart)
    (h : RealizedPart.resolve_links pid pidOk p = some p') :
    ∀ r ∈ refsOf p', ∃ s i, lookupA pid s = some i ∧ r = Ref.part i := by
  simp only [RealizedPart.resolve_links] at h
  by_cases e4 : (lookupA p.extra "resolve_links").isSome = true
  · rw [if_pos e4] at h; exact Option.noConfusion h
  rw [if_neg e4] at h
  by_cases e5 : (lookupA p.extra "ship").isSome = true
  · rw [if_pos e5] at h; exact Option.noConfusion h
  rw [if_neg e5] at h
  by_cases e6 : (lookupA p.extra "attachments").isSome = true
  · rw [if_pos e6] at h; exact Option.noConfusion h
  rw [if_neg e6] at h
  cases h1 : resolveList pid pidOk (lookupA p.extra "links") p.links with
  | none => rw [h1] at h; exact Option.noConfusion h
  | some l =>
      rw [h1] at h
      cases h2 : resolveList pid pidOk (lookupA p.extra "surface_attachments")
          p.surface_attachments with
      | none => rw [h2] at h; exact Option.noConfusion h
      | some sa =>
          rw [h2] at h
          cases h3 : resolveList pid pidOk (lookupA p.extra "sym") p.sym with
          | none => rw [h3] at h; exact Option.noConfusion h
          | some sy =>
              rw [h3] at h
              cases h4 : (if pidOk then resolveAtt pid p.attachments
                  else if p.attachments.isEmpty then some [] else none) with
              | none => rw [h4] at h; exact Option.noConfusion h
              | some at2 =>
                  rw [h4] at h
                  obtain h := Option.some.inj h
                  subst h
                  intro r hr
                  simp only [refsOf, List.mem_append] at hr
                  rcases hr with ((hr | hr) | hr) | hr
                  · exact resolveList_shape pid pidOk _ _ _ h1 r hr
                  · exact resolveList_shape pid pidOk _ _ _ h2 r hr
                  · exact resolveList_shape pid pidOk _ _ _ h3 r hr
                  · obtain ⟨pr, hpr, hpr2⟩ := List.mem_map.mp hr
                    by_cases hp : pidOk = true
                    · rw [if_pos hp] at h4
                      obtain ⟨s, i, hl, he⟩ := resolveAtt_shape pid _ _ h4 pr hpr
                      exact ⟨s, i, hl, by rw [← hpr2, he]⟩
                    · rw [if_neg hp] at h4
                      by_cases hae : p.attachments.isEmpty = true
                      · rw [if_pos hae] at h4
                        obtain h4 := Option.some.inj h4
                        subst h4
                        simp at hpr
                      · rw [if_neg hae] at h4
                        exact Option.noConfusion h4

theorem mapO_of_istgGet :
    ∀ (parts : List RealizedPart) (l : List Int),
      mapO istgGet parts = some l → mapO (fun p => p.istg) parts = some l := by
  intro parts
  induction parts with
  | nil => intro l h; exact h
  | cons a rest ih =>
      intro l h
      simp only [mapO] at h ⊢
      cases hg : istgGet a with
      | none => rw [hg] at h; exact Option.noConfusion h
      | some v =>
          rw [hg] at h
          cases hrest : mapO istgGet rest with
          | none => rw [hrest] at h; exact Option.noConfusion h
          | some vs =>
              rw [hrest] at h
              have ha : a.istg = some v := by
                simp only [istgGet] at hg
                by_cases hl : (lookupA a.extra "istg").isSome = true
                · rw [if_pos hl] at hg; exact Option.noConfusion hg
                · rw [if_neg hl] at hg; exact hg
              rw [ha, ih vs hrest]
              exact h

theorem mapO_of_dstgGet :
    ∀ (parts : List RealizedPart) (l : List Int),
      mapO dstgGet parts = some l → mapO (fun p => p.dstg) parts = some l := by
  intro parts
  induction parts with
  | nil => intro l h; exact h
  | cons a rest ih =>
      intro l h
      simp only [mapO] at h ⊢
      cases hg : dstgGet a with
      | none => rw [hg] at h; exact Option.noConfusion h
      | some v =>
          rw [hg] at h
          cases hrest : mapO dstgGet rest with
          | none => rw [hrest] at h; exact Option.noConfusion h
          | some vs =>
              rw [hrest] at h
              have ha : a.dstg = some v := by
                simp only [dstgGet] at hg
                by_cases hl : (lookupA a.extra "dstg").isSome = true
                · rw [if_pos hl] at hg; exact Option.noConfusion hg
                · rw [if_neg hl] at hg; exact hg
              rw [ha, ih vs hrest]
              exact h

theorem resolve_links_shape (s sh : Ship) (h : Ship.resolve_links s = some sh) :
    ∃ parts2 istgs dstgs mi md,
      mapO (RealizedPart.resolve_links s.partIdx
        (lookupA s.attrs "part" == none)) s.parts = some parts2 ∧
      mapO (fun p => p.istg) parts2 = some istgs ∧
      mapO (fun p => p.dstg) parts2 = some dstgs ∧
      maxOf? istgs = some mi ∧ maxOf? dstgs = some md ∧
      sh = ⟨s.attrs, parts2, s.partIdx,
            stageBuild parts2 (Int.toNat (max mi md + 1))⟩ := by
  simp only [Ship.resolve_links] at h
  by_cases g1 : (lookupA s.attrs "resolve_links").isSome = true
  · rw [if_pos g1] at h; exact Option.noConfusion h
  rw [if_neg g1] at h
  by_cases g2 : (lookupA s.attrs "parts").isSome = true
  · rw [if_pos g2] at h; exact Option.noConfusion h
  rw [if_neg g2] at h
  cases hm : mapO (RealizedPart.resolve_links s.partIdx
      (lookupA s.attrs "part" == none)) s.parts with
  | none => simp only [hm] at h; exact Option.noConfusion h
  | some parts2 =>
      simp only [hm] at h
      by_cases hq : parts2.all sqorHas = true
      case neg => rw [if_neg hq] at h; exact Option.noConfusion h
      rw [if_pos hq] at h
      cases hI : mapO istgGet parts2 with
      | none => simp [hI] at h
      | some istgs =>
          cases hD : mapO dstgGet parts2 with
          | none => simp [hI, hD] at h
          | some dstgs =>
              simp only [hI, hD] at h
              cases hmi : maxOf? istgs with
              | none => simp [hmi] at h
              | some mi =>
                  cases hmd : maxOf? dstgs with
                  | none => simp [hmi, hmd] at h
                  | some md =>
                      simp only [hmi, hmd, Option.some.injEq] at h
                      refine ⟨parts2, istgs, dstgs, mi, md,
                              ?_, ?_, ?_, ?_, ?_, ?_⟩ <;>
                        first
                        | rfl
                        | exact mapO_of_istgGet _ _ hI
                        | exact mapO_of_dstgGet _ _ hD
                        | exact hmi
                        | exact hmd
                        | exact h.symm

/-- C1: whenever `Ship.load` succeeds (the resolution pass having run
after the whole text was parsed, so forward references to parts declared
in later blocks are covered), every reference field of every part of the
returned ship holds a resolved part — the one stored under some
identifier in the same ship's part-by-id mapping, with an in-range part
index — and no identifier string remains. -/
theorem c1_forward_references_resolved (text : String) (lib : PartLib)
    (reg : SkipReg) (sh : Ship) (reg' : SkipReg)
    (h : Ship.load text lib reg = some (sh, reg')) :
    ∀ p ∈ sh.parts, ∀ r ∈ refsOf p,
      ∃ s i, lookupA sh.partIdx s = some i ∧ r = Ref.part i ∧
        i < sh.parts.length := by
  simp only [Ship.load] at h
  cases hL : shipLines lib (splitCh '\n' text) ⟨[("ship", "")], [], [], none, reg⟩ with
  | none => rw [hL] at h; exact Option.noConfusion h
  | some st =>
      simp only [hL] at h
      cases hR : Ship.resolve_links ⟨st.attrs, st.parts, st.partIdx, []⟩ with
      | none => simp only [hR] at h; exact Option.noConfusion h
      | some sh2 =>
          simp only [hR, Option.some.injEq, Prod.mk.injEq] at h
          obtain ⟨hsh, hreg⟩ := h
          subst hsh
          obtain ⟨parts2, istgs, dstgs, mi, md,
                  hm, hI, hD, hmi, hmd, hshape⟩ :=
            resolve_links_shape _ _ hR
          have hIdxB : ∀ pr ∈ st.partIdx, pr.2 < st.parts.length :=
            shipLines_bounds lib _ _ _ hL
              (by intro pr hpr; simp at hpr)
              (by intro c hc; exact Option.noConfusion hc)
          have hlen : parts2.length = st.parts.length :=
            mapO_length _ _ _ hm
          intro p hp r hr
          subst hshape
          simp only [List.length_cons] at hp ⊢
          obtain ⟨p0, hp0, hres⟩ := mapO_mem_rev _ _ _ hm p hp
          obtain ⟨s0, i0, hlook, hrpart⟩ := resolve_links_refs _ _ _ _ hres r hr
          refine ⟨s0, i0, hlook, hrpart, ?_⟩
          rw [hlen]
          exact hIdxB (s0, i0) (lookupA_mem _ _ _ hlook)

/-- C1 witness: the forward-reference fixture loads, and its references
are all resolved in-ship parts. -/
theorem c1_witness :
    ∃ sh reg', Ship.load shipTextFwd libAB [] = some (sh, reg') ∧
      ∀ p ∈ sh.parts, ∀ r ∈ refsOf p,
        ∃ s i, lookupA sh.partIdx s = some i ∧ r = Ref.part i ∧
          i < sh.parts.length := by
  cases hL : Ship.load shipTextFwd libAB [] with
  | none => exact absurd hL (by decide)
  | some pr =>
      obtain ⟨sh, reg'⟩ := pr
      exact ⟨sh, reg', rfl, c1_forward_references_resolved _ _ _ _ _ hL⟩

/-! ## Claim C2: the stage sequence is complete, 0..N-1 with no gaps -/

theorem mapO_eq_map_getD {α β : Type} (f : α → Option β) (d : β) :
    ∀ (l : List α) (l' : List β), mapO f l = some l' →
      l' = l.map (fun a => (f a).getD d) := by
  intro l
  induction l with
  | nil =>
      intro l' h
      obtain h := Option.some.inj h
      subst h
      rfl
  | cons a rest ih =>
      intro l' h
      simp only [mapO] at h
      cases hfa : f a with
      | none => rw [hfa] at h; exact Option.noConfusion h
      | some b =>
          rw [hfa] at h
          cases hrest : mapO f rest with
          | none => rw [hrest] at h; exact Option.noConfusion h
          | some bs =>
              rw [hrest] at h
              obtain h := Option.some.inj h
              subst h
              simp [hfa, ih bs hrest]

theorem maxOf?_mem : ∀ (l : List Int) (m : Int), maxOf? l = some m → m ∈ l := by
  intro l
  induction l with
  | nil => intro m h; exact Option.noConfusion h
  | cons a rest ih =>
      intro m h
      simp only [maxOf?] at h
      cases hrest : maxOf? rest with
      | none =>
          rw [hrest] at h
          obtain h := Option.some.inj h
          subst h
          exact List.mem_cons_self _ _
      | some m0 =>
          rw [hrest] at h
          obtain h := Option.some.inj h
          subst h
          rcases max_cases a m0 with ⟨he, -⟩ | ⟨he, -⟩
          · rw [he]; exact List.mem_cons_self _ _
          · rw [he]; exact List.mem_cons_of_mem _ (ih m0 hrest)

theorem maxOf?_cons (x : Int) (xs : List Int) :
    maxOf? (x :: xs) =
      match maxOf? xs with
      | none => some x
      | some m => some (max x m) := rfl

theorem maxOf?_map_max {α : Type} (f g : α → Int) :
    ∀ (l : List α) (a b : Int),
      maxOf? (l.map f) = some a → maxOf? (l.map g) = some b →
      maxOf? (l.map (fun p => max (f p) (g p))) = some (max a b) := by
  intro l
  induction l with
  | nil => intro a b ha; exact Option.noConfusion ha
  | cons p rest ih =>
      intro a b ha hb
      cases rest with
      | nil =>
          simp only [List.map_cons, List.map_nil, maxOf?] at ha hb ⊢
          obtain ha := Option.some.inj ha
          obtain hb := Option.some.inj hb
          rw [ha, hb]
      | cons q rest2 =>
          cases hmf : maxOf? (List.map f (q :: rest2)) with
          | none =>
              have hfs := maxOf?_isSome (f q) (List.map f rest2)
              rw [List.map_cons] at hmf
              rw [hmf] at hfs
              simp at hfs
          | some mf =>
              cases hmg : maxOf? (List.map g (q :: rest2)) with
              | none =>
                  have hgs := maxOf?_isSome (g q) (List.map g rest2)
                  rw [List.map_cons] at hmg
                  rw [hmg] at hgs
                  simp at hgs
              | some mg =>
                  have hcomb := ih mf mg hmf hmg
                  rw [List.map_cons, maxOf?_cons] at ha
                  simp only [hmf] at ha
                  rw [List.map_cons, maxOf?_cons] at hb
                  simp only [hmg] at hb
                  rw [List.map_cons, maxOf?_cons]
                  simp only [hcomb]
                  obtain ha := Option.some.inj ha
                  obtain hb := Option.some.inj hb
                  rw [← ha, ← hb, max_max_max_comm]

theorem stageBuild_length (parts : List RealizedPart) (n : Nat) :
    (stageBuild parts n).length = n := by
  simp [stageBuild]

theorem stageBuild_get? (parts : List RealizedPart) (n k : Nat) :
    (stageBuild parts n).get? k =
      if k < n then some (mkStage parts k) else none := by
  by_cases hk : k < n
  · simp [stageBuild, List.get?_eq_getElem?, List.getElem?_map,
          List.getElem?_range hk, hk]
  · have hlen : n ≤ k := Nat.le_of_not_lt hk
    simp only [stageBuild, List.get?_eq_getElem?, List.getElem?_map, hk,
               if_false]
    rw [List.getElem?_eq_none (by simpa using hlen)]
    rfl

theorem ignIdx_eq_nil (parts : List RealizedPart) (k : Nat)
    (h : ∀ p ∈ parts, ¬ p.istg = some (k : Int)) : ignIdx parts k = [] := by
  simp only [ignIdx]
  apply List.filter_eq_nil_iff.mpr
  intro j hj
  cases hp : parts.get? j with
  | none => simp [hp]
  | some p => simp [hp, h p (List.get?_mem hp)]

theorem detIdx_eq_nil (parts : List RealizedPart) (k : Nat)
    (h : ∀ p ∈ parts, ¬ p.dstg = some (k : Int)) : detIdx parts k = [] := by
  simp only [detIdx]
  apply List.filter_eq_nil_iff.mpr
  intro j hj
  cases hp : parts.get? j with
  | none => simp [hp]
  | some p => simp [hp, h p (List.get?_mem hp)]

/-- C2: for every loaded ship whose stage indices are non-negative (stage
indices denote ordinals of the stage sequence), the built stage sequence
has exactly `max(ignition-stage, detach-stage over all parts) + 1`
entries, the entry at position `k` carries stage ordinal `k` (so the
ordinals are exactly `0..N-1` in order with no gaps), and an ordinal to
which no part maps gets empty ignition and detach lists. -/
theorem c2_stage_sequence_complete (text : String) (lib : PartLib)
    (reg : SkipReg) (sh : Ship) (reg' : SkipReg)
    (h : Ship.load text lib reg = some (sh, reg'))
    (hpos : ∀ p ∈ sh.parts, 0 ≤ p.istg.getD 0 ∧ 0 ≤ p.dstg.getD 0) :
    ∃ M, specMaxStage sh.parts = some M ∧
      (sh.stages.length : Int) = M + 1 ∧
      ∀ k stg, sh.stages.get? k = some stg →
        stg.stage_num = k ∧
        ((∀ p ∈ sh.parts, ¬ p.istg = some (k : Int)) → stg.ignition = []) ∧
        ((∀ p ∈ sh.parts, ¬ p.dstg = some (k : Int)) → stg.detach = []) := by
  simp only [Ship.load] at h
  cases hL : shipLines lib (splitCh '\n' text) ⟨[("ship", "")], [], [], none, reg⟩ with
  | none => rw [hL] at h; exact Option.noConfusion h
  | some st =>
      simp only [hL] at h
      cases hR : Ship.resolve_links ⟨st.attrs, st.parts, st.partIdx, []⟩ with
      | none => simp only [hR] at h; exact Option.noConfusion h
      | some sh2 =>
          simp only [hR, Option.some.injEq, Prod.mk.injEq] at h
          obtain ⟨hsh, hreg⟩ := h
          subst hsh
          obtain ⟨parts2, istgs, dstgs, mi, md,
                  hm, hI, hD, hmi, hmd, hshape⟩ := resolve_links_shape _ _ hR
          subst hshape
          simp only at hpos ⊢
          have hIeq : istgs = parts2.map (fun p => p.istg.getD 0) :=
            mapO_eq_map_getD _ 0 _ _ hI
          have hDeq : dstgs = parts2.map (fun p => p.dstg.getD 0) :=
            mapO_eq_map_getD _ 0 _ _ hD
          have hmax : specMaxStage parts2 = some (max mi md) := by
            simp only [specMaxStage]
            apply maxOf?_map_max (fun p : RealizedPart => p.istg.getD 0)
                (fun p : RealizedPart => p.dstg.getD 0)
            · rw [← hIeq]; exact hmi
            · rw [← hDeq]; exact hmd
          have hmi0 : 0 ≤ mi := by
            have hmem := maxOf?_mem _ _ hmi
            rw [hIeq] at hmem
            obtain ⟨p, hp, hpe⟩ := List.mem_map.mp hmem
            rw [← hpe]
            exact (hpos p hp).1
          have hM0 : 0 ≤ max mi md := le_trans hmi0 (le_max_left _ _)
          refine ⟨max mi md, hmax, ?_, ?_⟩
          · rw [stageBuild_length]
            rw [Int.toNat_of_nonneg (by omega)]
          · intro k stg hstg
            rw [stageBuild_get?] at hstg
            by_cases hk : k < Int.toNat (max mi md + 1)
            · rw [if_pos hk] at hstg
              obtain hstg := Option.some.inj hstg
              subst hstg
              exact ⟨rfl, fun hno => ignIdx_eq_nil parts2 k hno,
                     fun hno => detIdx_eq_nil parts2 k hno⟩
            · rw [if_neg hk] at hstg
              exact Option.noConfusion hstg

/-- C2 witness: the spec's staging example has max stage index 2 and a
three-entry stage sequence with ordinals 0, 1, 2, where ordinal 2 ignites
nothing. -/
theorem c2_witness :
    Ship.load shipTextAB libAB [] = some (shipABLit, []) ∧
    ∃ M, specMaxStage shipABLit.parts = some M ∧
      (shipABLit.stages.length : Int) = M + 1 ∧
      ∀ k stg, shipABLit.stages.get? k = some stg →
        stg.stage_num = k ∧
        ((∀ p ∈ shipABLit.parts, ¬ p.istg = some (k : Int)) → stg.ignition = []) ∧
        ((∀ p ∈ shipABLit.parts, ¬ p.dstg = some (k : Int)) → stg.detach = []) := by
  have hL : Ship.load shipTextAB libAB [] = some (shipABLit, []) := by decide
  exact ⟨hL, c2_stage_sequence_complete _ _ _ _ _ hL (by decide)⟩

/-! ## Claim C4: cumulative stage mass -/

theorem pfAdd_comm (a b : PyFloat) : pfAdd a b = pfAdd b a := by
  simp only [pfAdd, PyFloat.mk.injEq]
  constructor <;> ring

theorem pfAdd_assoc (a b c : PyFloat) :
    pfAdd (pfAdd a b) c = pfAdd a (pfAdd b c) := by
  simp only [pfAdd, PyFloat.mk.injEq]
  constructor <;> ring

theorem pfAdd_zero (a : PyFloat) : pfAdd a pfZero = a := by
  cases a with
  | mk n d =>
      simp only [pfAdd, pfZero, PyFloat.mk.injEq]
      constructor <;> ring

theorem pfZero_add (a : PyFloat) : pfAdd pfZero a = a := by
  cases a with
  | mk n d =>
      simp only [pfAdd, pfZero, PyFloat.mk.injEq]
      constructor <;> ring

theorem pfSum_append (l1 l2 : List PyFloat) :
    pfSum (l1 ++ l2) = pfAdd (pfSum l1) (pfSum l2) := by
  induction l1 with
  | nil => simp [pfSum, pfZero_add]
  | cons a rest ih =>
      rw [List.cons_append]
      simp only [pfSum]
      rw [ih, pfAdd_assoc]

theorem mem_ignIdx (parts : List RealizedPart) (k : Nat) (j : Nat) :
    j ∈ ignIdx parts k ↔
      j < parts.length ∧
        ((parts.get? j).bind (fun p => p.istg)) = some (k : Int) := by
  simp [ignIdx, List.mem_filter, List.mem_range, beq_iff_eq, and_comm]

theorem mem_detIdx (parts : List RealizedPart) (k : Nat) (j : Nat) :
    j ∈ detIdx parts k ↔
      j < parts.length ∧
        ((parts.get? j).bind (fun p => p.dstg)) = some (k : Int) := by
  simp [detIdx, List.mem_filter, List.mem_range, beq_iff_eq, and_comm]

theorem stageMassSum_eq (parts : List RealizedPart) :
    ∀ idxs : List Nat,
      (∀ j ∈ idxs,
        (((parts.get? j).bind (fun p => p.part_type)).bind massOf).isSome) →
      stageMassSum parts idxs = some (pfSum (idxs.map (massD parts))) := by
  intro idxs
  induction idxs with
  | nil => intro _; rfl
  | cons j rest ih =>
      intro h
      have hj := h j (List.mem_cons_self _ _)
      cases hm : ((parts.get? j).bind (fun p => p.part_type)).bind massOf with
      | none => rw [hm] at hj; simp at hj
      | some m =>
          simp only [stageMassSum, hm,
                     ih (fun j2 hj2 => h j2 (List.mem_cons_of_mem _ hj2))]
          rw [List.get?_eq_getElem?] at hm
          simp [pfSum, massD, hm]

theorem massLoop_eq (parts : List RealizedPart)
    (hmass : ∀ p ∈ parts, (p.part_type.bind massOf).isSome) :
    ∀ ks : List Nat,
      massLoop parts (ks.map (mkStage parts)) =
        some (pfSum (ks.map
          (fun k => pfSum ((ignIdx parts k).map (massD parts))))) := by
  intro ks
  induction ks with
  | nil => rfl
  | cons k rest ih =>
      have hidx : ∀ j ∈ ignIdx parts k,
          (((parts.get? j).bind (fun p => p.part_type)).bind massOf).isSome := by
        intro j hj
        obtain ⟨hjl, hje⟩ := (mem_ignIdx parts k j).mp hj
        cases hp : parts.get? j with
        | none => rw [hp] at hje; exact Option.noConfusion hje
        | some p =>
            have h2 := hmass p (List.get?_mem hp)
            simpa [hp] using h2
      simp only [List.map_cons, massLoop, mkStage]
      rw [stageMassSum_eq parts _ hidx, ih]
      rfl

theorem takeWhile_map_own {α β : Type} (f : α → β) (p : β → Bool) :
    ∀ l : List α,
      (l.map f).takeWhile p = (l.takeWhile (fun a => p (f a))).map f := by
  intro l
  induction l with
  | nil => rfl
  | cons a rest ih =>
      simp only [List.map_cons, List.takeWhile_cons]
      by_cases h : p (f a) = true
      · simp [h, ih]
      · simp [h]

theorem takeWhile_le_range' (i : Nat) :
    ∀ (m a : Nat), (List.range' a m).takeWhile (fun k => decide (k ≤ i)) =
      List.range' a (min (i + 1 - a) m) := by
  intro m
  induction m with
  | zero => intro a; simp
  | succ m ih =>
      intro a
      rw [List.range'_succ, List.takeWhile_cons]
      by_cases h : a ≤ i
      · rw [if_pos (by simpa using h)]
        rw [ih (a + 1)]
        have he : min (i + 1 - a) (m + 1) = min (i + 1 - (a + 1)) m + 1 := by
          omega
        rw [he, List.range'_succ]
      · rw [if_neg (by simpa using h)]
        have he : min (i + 1 - a) (m + 1) = 0 := by omega
        rw [he]
        simp

theorem takeWhile_le_range (i n : Nat) :
    (List.range n).takeWhile (fun k => decide (k ≤ i)) =
      List.range (min (i + 1) n) := by
  rw [List.range_eq_range', List.range_eq_range', takeWhile_le_range' i n 0]
  simp

theorem pfSum_filter_split (parts : List RealizedPart) (m : Nat) :
    ∀ js : List Nat,
      pfSum ((js.filter (fun j =>
          decide (0 ≤ istgD parts j ∧ istgD parts j < ((m : Int) + 1)))).map
        (massD parts)) =
      pfAdd
        (pfSum ((js.filter (fun j =>
            decide (0 ≤ istgD parts j ∧ istgD parts j < (m : Int)))).map
          (massD parts)))
        (pfSum ((js.filter (fun j =>
            decide (istgD parts j = (m : Int)))).map (massD parts))) := by
  intro js
  induction js with
  | nil => simp [pfSum, pfAdd_zero]
  | cons j rest ih =>
      simp only [List.filter_cons]
      by_cases h1 : (0 ≤ istgD parts j ∧ istgD parts j < (m : Int))
      · have hbig : (0 ≤ istgD parts j ∧ istgD parts j < ((m : Int) + 1)) :=
          ⟨h1.1, by omega⟩
        have hne : ¬(istgD parts j = (m : Int)) := by omega
        rw [if_pos (by simpa using hbig), if_pos (by simpa using h1),
            if_neg (by simpa using hne)]
        simp only [List.map_cons, pfSum]
        rw [ih, ← pfAdd_assoc]
      · by_cases h2 : istgD parts j = (m : Int)
        · have hbig : (0 ≤ istgD parts j ∧ istgD parts j < ((m : Int) + 1)) := by
            constructor <;> omega
          rw [if_pos (by simpa using hbig), if_neg (by simpa using h1),
              if_pos (by simpa using h2)]
          simp only [List.map_cons, pfSum]
          rw [ih, ← pfAdd_assoc, pfAdd_comm (massD parts j), pfAdd_assoc]
        · have hnbig : ¬(0 ≤ istgD parts j ∧ istgD parts j < ((m : Int) + 1)) := by
            omega
          rw [if_neg (by simpa using hnbig), if_neg (by simpa using h1),
              if_neg (by simpa using h2)]
          exact ih

theorem ignIdx_as_filter (parts : List RealizedPart) (k : Nat)
    (hsome : ∀ p ∈ parts, p.istg.isSome) :
    ignIdx parts k = (List.range parts.length).filter
      (fun j => decide (istgD parts j = (k : Int))) := by
  simp only [ignIdx]
  apply List.filter_congr
  intro j hj
  have hjl : j < parts.length := List.mem_range.mp hj
  cases hp : parts.get? j with
  | none =>
      have := List.get?_eq_none.mp hp
      omega
  | some p =>
      have hs := hsome p (List.get?_mem hp)
      rw [List.get?_eq_getElem?] at hp
      cases hx : p.istg with
      | none => rw [hx] at hs; simp at hs
      | some x =>
          by_cases hxe : x = (k : Int)
          · simp [istgD, hp, hx, hxe]
          · simp [istgD, hp, hx, hxe]

theorem pfSum_fiber (parts : List RealizedPart)
    (hsome : ∀ p ∈ parts, p.istg.isSome) :
    ∀ m : Nat,
      pfSum ((List.range m).map
        (fun k => pfSum ((ignIdx parts k).map (massD parts)))) =
      pfSum (((List.range parts.length).filter
        (fun j => decide (0 ≤ istgD parts j ∧ istgD parts j < (m : Int)))).map
          (massD parts)) := by
  intro m
  induction m with
  | zero =>
      simp only [List.range_zero, List.map_nil]
      have hnil : (List.range parts.length).filter
          (fun j => decide (0 ≤ istgD parts j ∧ istgD parts j < ((0 : Nat) : Int))) = [] := by
        apply List.filter_eq_nil_iff.mpr
        intro j hj
        simp only [decide_eq_true_eq]
        omega
      rw [hnil]
      rfl
  | succ m ih =>
      rw [List.range_succ, List.map_append, pfSum_append, ih]
      have hfun : (fun j => decide (0 ≤ istgD parts j ∧
          istgD parts j < ((m + 1 : Nat) : Int))) =
          (fun j => decide (0 ≤ istgD parts j ∧ istgD parts j < ((m : Int) + 1))) := by
        funext j
        have : ((m + 1 : Nat) : Int) = (m : Int) + 1 := by push_cast; ring
        rw [this]
      rw [hfun, pfSum_filter_split parts m (List.range parts.length)]
      congr 1
      simp only [List.map_cons, List.map_nil, pfSum]
      rw [pfAdd_zero, ignIdx_as_filter parts m hsome]

/-- C4: for every loaded ship whose parts are typed with numeric masses
and carry non-negative ignition indices, every stage's `mass()` is the sum
of the catalog masses of all parts whose ignition-stage index is at most
that stage's ordinal — cumulative, with no subtraction for parts detached
at earlier stages. -/
theorem c4_stage_mass (text : String) (lib : PartLib) (reg : SkipReg)
    (sh : Ship) (reg' : SkipReg)
    (h : Ship.load text lib reg = some (sh, reg'))
    (hmass : ∀ p ∈ sh.parts, (p.part_type.bind massOf).isSome)
    (hpos : ∀ p ∈ sh.parts, 0 ≤ p.istg.getD 0) :
    ∀ i stg, sh.stages.get? i = some stg →
      Stage.mass sh stg = some (specMassSum sh.parts i) := by
  simp only [Ship.load] at h
  cases hL : shipLines lib (splitCh '\n' text) ⟨[("ship", "")], [], [], none, reg⟩ with
  | none => rw [hL] at h; exact Option.noConfusion h
  | some st =>
      simp only [hL] at h
      cases hR : Ship.resolve_links ⟨st.attrs, st.parts, st.partIdx, []⟩ with
      | none => simp only [hR] at h; exact Option.noConfusion h
      | some sh2 =>
          simp only [hR, Option.some.injEq, Prod.mk.injEq] at h
          obtain ⟨hsh, hreg⟩ := h
          subst hsh
          obtain ⟨parts2, istgs, dstgs, mi, md,
                  hm, hI, hD, hmi, hmd, hshape⟩ := resolve_links_shape _ _ hR
          subst hshape
          simp only at hmass hpos ⊢
          have hsome : ∀ p ∈ parts2, p.istg.isSome :=
            fun p hp => mapO_forall_isSome _ _ _ hI p hp
          have hIeq : istgs = parts2.map (fun p => p.istg.getD 0) :=
            mapO_eq_map_getD _ 0 _ _ hI
          have hmi0 : 0 ≤ mi := by
            have hmem := maxOf?_mem _ _ hmi
            rw [hIeq] at hmem
            obtain ⟨p, hp, hpe⟩ := List.mem_map.mp hmem
            rw [← hpe]
            exact hpos p hp
          have hbound : ∀ j, j < parts2.length →
              istgD parts2 j ≤ mi ∧ 0 ≤ istgD parts2 j := by
            intro j hj
            cases hp : parts2.get? j with
            | none =>
                have := List.get?_eq_none.mp hp
                omega
            | some p =>
                have hpm : p ∈ parts2 := List.get?_mem hp
                have hmem : p.istg.getD 0 ∈ istgs := by
                  rw [hIeq]
                  exact List.mem_map_of_mem _ hpm
                rw [List.get?_eq_getElem?] at hp
                constructor
                · have := maxOf?_le _ _ hmi _ hmem
                  simpa [istgD, hp] using this
                · have := hpos p hpm
                  simpa [istgD, hp] using this
          intro i stg hstg
          rw [stageBuild_get?] at hstg
          by_cases hk : i < Int.toNat (max mi md + 1)
          · rw [if_pos hk] at hstg
            obtain hstg := Option.some.inj hstg
            subst hstg
            simp only [Stage.mass, stageBuild]
            have hpred : (fun s2 : Stage => decide (s2.stage_num ≤ (mkStage parts2 i).stage_num)) =
                (fun s2 : Stage => decide (s2.stage_num ≤ i)) := rfl
            rw [hpred, takeWhile_map_own (mkStage parts2)
                  (fun s2 => decide (s2.stage_num ≤ i))]
            have hpred2 : (fun a : Nat => decide ((mkStage parts2 a).stage_num ≤ i)) =
                (fun k => decide (k ≤ i)) := rfl
            rw [hpred2, takeWhile_le_range i _]
            rw [massLoop_eq parts2 hmass]
            rw [pfSum_fiber parts2 hsome]
            have hfeq : (List.range parts2.length).filter
                (fun j => decide (0 ≤ istgD parts2 j ∧ istgD parts2 j <
                  ((min (i + 1) (Int.toNat (max mi md + 1)) : Nat) : Int))) =
              (List.range parts2.length).filter
                (fun j => decide (istgD parts2 j ≤ (i : Int))) := by
              apply List.filter_congr
              intro j hj
              have hjl := List.mem_range.mp hj
              obtain ⟨hle, hge⟩ := hbound j hjl
              have hn : ((Int.toNat (max mi md + 1) : Nat) : Int) =
                  max mi md + 1 := Int.toNat_of_nonneg (by omega)
              have hcast : ((min (i + 1) (Int.toNat (max mi md + 1)) : Nat) : Int) =
                  min ((i : Int) + 1) ((Int.toNat (max mi md + 1) : Nat) : Int) := by
                push_cast
                rfl
              rw [decide_eq_decide, hcast, hn]
              have hmx : istgD parts2 j ≤ max mi md :=
                le_trans hle (le_max_left _ _)
              omega
            rw [hfeq]
            rfl
          · rw [if_neg hk] at hstg
            exact Option.noConfusion hstg

/-- C4 witness: the spec's concrete example — A ignites at stage 0 with
mass 10, B ignites at stage 1 (detaching at stage 2) with mass 20 — gives
cumulative masses 10, 30, 30 with no subtraction at stage 2. -/
theorem c4_witness :
    (∀ i stg, shipABLit.stages.get? i = some stg →
        Stage.mass shipABLit stg = some (specMassSum shipABLit.parts i)) ∧
    Stage.mass shipABLit ⟨0, [0], [0], []⟩ = some ⟨10, 1⟩ ∧
    Stage.mass shipABLit ⟨1, [1], [], []⟩ = some ⟨30, 1⟩ ∧
    Stage.mass shipABLit ⟨2, [], [1], []⟩ = some ⟨30, 1⟩ := by
  have hL : Ship.load shipTextAB libAB [] = some (shipABLit, []) := by decide
  exact ⟨c4_stage_mass _ _ _ _ _ hL (by decide) (by decide),
         by decide, by decide, by decide⟩

/-! ## Claim C3: available thrusters per stage -/

theorem typedAt_of_lt (parts : List RealizedPart)
    (htyped : ∀ p ∈ parts, p.part_type.isSome) (j : Nat)
    (hj : j < parts.length) :
    ((parts.get? j).bind (fun p => p.part_type)).isSome := by
  cases hp : parts.get? j with
  | none =>
      have := List.get?_eq_none.mp hp
      omega
  | some p =>
      have := htyped p (List.get?_mem hp)
      simpa [hp] using this

theorem engineFilter_eq (parts : List RealizedPart) :
    ∀ idxs : List Nat,
      (∀ j ∈ idxs, ((parts.get? j).bind (fun p => p.part_type)).isSome) →
      ∃ l, engineFilter parts idxs = some l ∧
        ∀ j, j ∈ l ↔ j ∈ idxs ∧ isEngineAt parts j = true := by
  intro idxs
  induction idxs with
  | nil => intro _; exact ⟨[], rfl, by simp⟩
  | cons j rest ih =>
      intro h
      have hj := h j (List.mem_cons_self _ _)
      cases hpt : (parts.get? j).bind (fun p => p.part_type) with
      | none => rw [hpt] at hj; simp at hj
      | some pt =>
          obtain ⟨l, hl, hmem⟩ := ih (fun j2 hj2 => h j2 (List.mem_cons_of_mem _ hj2))
          have heng : isEngineAt parts j = isEngineOf pt := by
            rw [List.get?_eq_getElem?] at hpt
            simp [isEngineAt, hpt]
          by_cases he : isEngineOf pt = true
          · refine ⟨j :: l, ?_, ?_⟩
            · simp only [engineFilter, hpt, hl]
              rw [if_pos he]
            · intro j2
              simp only [List.mem_cons, hmem]
              constructor
              · rintro (h2 | ⟨h2, h3⟩)
                · subst h2
                  exact ⟨Or.inl rfl, heng ▸ he⟩
                · exact ⟨Or.inr h2, h3⟩
              · rintro ⟨h2 | h2, h3⟩
                · exact Or.inl h2
                · exact Or.inr ⟨h2, h3⟩
          · refine ⟨l, ?_, ?_⟩
            · simp only [engineFilter, hpt, hl]
              rw [if_neg he]
            · intro j2
              simp only [hmem, List.mem_cons]
              constructor
              · rintro ⟨h2, h3⟩
                exact ⟨Or.inr h2, h3⟩
              · rintro ⟨h2 | h2, h3⟩
                · subst h2
                  rw [heng] at h3
                  exact absurd h3 he
                · exact ⟨h2, h3⟩

theorem mem_addNew : ∀ (l acc : List Nat) (j : Nat),
    j ∈ addNew acc l ↔ j ∈ acc ∨ j ∈ l := by
  intro l
  induction l with
  | nil => intro acc j; simp [addNew]
  | cons x rest ih =>
      intro acc j
      simp only [addNew]
      rw [ih]
      by_cases hc : acc.contains x = true
      · have hx : x ∈ acc := by
          simpa using hc
        rw [if_pos hc]
        constructor
        · rintro (h | h)
          · exact Or.inl h
          · exact Or.inr (List.mem_cons_of_mem _ h)
        · rintro (h | h)
          · exact Or.inl h
          · rcases List.mem_cons.mp h with h2 | h2
            · subst h2; exact Or.inl hx
            · exact Or.inr h2
      · rw [if_neg hc]
        constructor
        · intro h2
          rcases h2 with h2 | h2
          · rcases List.mem_append.mp h2 with h3 | h3
            · exact Or.inl h3
            · rcases List.mem_cons.mp h3 with h4 | h4
              · exact Or.inr (List.mem_cons.mpr (Or.inl h4))
              · simp at h4
          · exact Or.inr (List.mem_cons.mpr (Or.inr h2))
        · intro h2
          rcases h2 with h2 | h2
          · exact Or.inl (List.mem_append.mpr (Or.inl h2))
          · rcases List.mem_cons.mp h2 with h3 | h3
            · exact Or.inl (List.mem_append.mpr (Or.inr (by simp [h3])))
            · exact Or.inr h3

theorem availLoop_eq (parts : List RealizedPart)
    (htyped : ∀ p ∈ parts, p.part_type.isSome) :
    ∀ (stages : List Stage) (ign det : List Nat),
      (∀ st ∈ stages, (∀ j ∈ st.ignition, j < parts.length) ∧
        (∀ j ∈ st.detach, j < parts.length)) →
      ∃ I D, availLoop parts stages ign det = some (I, D) ∧
        (∀ j, j ∈ I ↔ j ∈ ign ∨
          ∃ st ∈ stages, j ∈ st.ignition ∧ isEngineAt parts j = true) ∧
        (∀ j, j ∈ D ↔ j ∈ det ∨
          ∃ st ∈ stages, j ∈ st.detach ∧ isEngineAt parts j = true) := by
  intro stages
  induction stages with
  | nil =>
      intro ign det _
      exact ⟨ign, det, rfl, by simp, by simp⟩
  | cons st rest ih =>
      intro ign det hb
      have hbst := hb st (List.mem_cons_self _ _)
      obtain ⟨ie, hie, hmemIe⟩ := engineFilter_eq parts st.ignition
        (fun j hj => typedAt_of_lt parts htyped j (hbst.1 j hj))
      obtain ⟨de, hde, hmemDe⟩ := engineFilter_eq parts st.detach
        (fun j hj => typedAt_of_lt parts htyped j (hbst.2 j hj))
      obtain ⟨I, D, hloop, hmemI, hmemD⟩ :=
        ih (addNew ign ie) (addNew det de)
          (fun st2 hst2 => hb st2 (List.mem_cons_of_mem _ hst2))
      refine ⟨I, D, ?_, ?_, ?_⟩
      · simp only [availLoop, hie, hde]
        exact hloop
      · intro j
        rw [hmemI j, mem_addNew, hmemIe j]
        constructor
        · rintro ((h | ⟨h1, h2⟩) | ⟨st2, hst2, h1, h2⟩)
          · exact Or.inl h
          · exact Or.inr ⟨st, List.mem_cons_self _ _, h1, h2⟩
          · exact Or.inr ⟨st2, List.mem_cons_of_mem _ hst2, h1, h2⟩
        · rintro (h | ⟨st2, hst2, h1, h2⟩)
          · exact Or.inl (Or.inl h)
          · rcases List.mem_cons.mp hst2 with h3 | h3
            · subst h3
              exact Or.inl (Or.inr ⟨h1, h2⟩)
            · exact Or.inr ⟨st2, h3, h1, h2⟩
      · intro j
        rw [hmemD j, mem_addNew, hmemDe j]
        constructor
        · rintro ((h | ⟨h1, h2⟩) | ⟨st2, hst2, h1, h2⟩)
          · exact Or.inl h
          · exact Or.inr ⟨st, List.mem_cons_self _ _, h1, h2⟩
          · exact Or.inr ⟨st2, List.mem_cons_of_mem _ hst2, h1, h2⟩
        · rintro (h | ⟨st2, hst2, h1, h2⟩)
          · exact Or.inl (Or.inl h)
          · rcases List.mem_cons.mp hst2 with h3 | h3
            · subst h3
              exact Or.inl (Or.inr ⟨h1, h2⟩)
            · exact Or.inr ⟨st2, h3, h1, h2⟩

theorem drop_range' : ∀ (s m a : Nat),
    (List.range' a m).drop s = List.range' (a + s) (m - s) := by
  intro s
  induction s with
  | zero => intro m a; simp
  | succ s ih =>
      intro m a
      cases m with
      | zero => simp
      | succ m =>
          rw [List.range'_succ]
          simp only [List.drop_succ_cons]
          rw [ih m (a + 1)]
          have h1 : a + 1 + s = a + (s + 1) := by omega
          have h2 : m - s = m + 1 - (s + 1) := by omega
          rw [h1, h2]

/-- C3: for every loaded ship whose parts are all typed, every stage's
`available_thrusters()` returns exactly the engines whose ignition-stage
index is at least the stage's ordinal, minus those whose detach-stage
index is at least that ordinal — in particular a part detaching at the
queried stage itself is excluded. -/
theorem c3_available_thrusters (text : String) (lib : PartLib) (reg : SkipReg)
    (sh : Ship) (reg' : SkipReg)
    (h : Ship.load text lib reg = some (sh, reg'))
    (htyped : ∀ p ∈ sh.parts, p.part_type.isSome) :
    ∀ i stg, sh.stages.get? i = some stg →
      ∃ l, Stage.available_thrusters sh stg = some l ∧
        ∀ j, j ∈ l ↔ (isEngineAt sh.parts j = true ∧
          (i : Int) ≤ istgD sh.parts j ∧ dstgD sh.parts j < (i : Int)) := by
  simp only [Ship.load] at h
  cases hL : shipLines lib (splitCh '\n' text) ⟨[("ship", "")], [], [], none, reg⟩ with
  | none => rw [hL] at h; exact Option.noConfusion h
  | some st =>
      simp only [hL] at h
      cases hR : Ship.resolve_links ⟨st.attrs, st.parts, st.partIdx, []⟩ with
      | none => simp only [hR] at h; exact Option.noConfusion h
      | some sh2 =>
          simp only [hR, Option.some.injEq, Prod.mk.injEq] at h
          obtain ⟨hsh, hreg⟩ := h
          subst hsh
          obtain ⟨parts2, istgs, dstgs, mi, md,
                  hm, hI, hD, hmi, hmd, hshape⟩ := resolve_links_shape _ _ hR
          subst hshape
          simp only at htyped ⊢
          have hsomeI : ∀ p ∈ parts2, p.istg.isSome :=
            fun p hp => mapO_forall_isSome _ _ _ hI p hp
          have hsomeD : ∀ p ∈ parts2, p.dstg.isSome :=
            fun p hp => mapO_forall_isSome _ _ _ hD p hp
          have hIeq : istgs = parts2.map (fun p => p.istg.getD 0) :=
            mapO_eq_map_getD _ 0 _ _ hI
          have hDeq : dstgs = parts2.map (fun p => p.dstg.getD 0) :=
            mapO_eq_map_getD _ 0 _ _ hD
          have hboundI : ∀ j, j < parts2.length → istgD parts2 j ≤ mi := by
            intro j hj
            cases hp : parts2.get? j with
            | none =>
                have := List.get?_eq_none.mp hp
                omega
            | some p =>
                have hpm : p ∈ parts2 := List.get?_mem hp
                have hmem : p.istg.getD 0 ∈ istgs := by
                  rw [hIeq]
                  exact List.mem_map_of_mem _ hpm
                have := maxOf?_le _ _ hmi _ hmem
                rw [List.get?_eq_getElem?] at hp
                simpa [istgD, hp] using this
          have hboundD : ∀ j, j < parts2.length → dstgD parts2 j ≤ md := by
            intro j hj
            cases hp : parts2.get? j with
            | none =>
                have := List.get?_eq_none.mp hp
                omega
            | some p =>
                have hpm : p ∈ parts2 := List.get?_mem hp
                have hmem : p.dstg.getD 0 ∈ dstgs := by
                  rw [hDeq]
                  exact List.mem_map_of_mem _ hpm
                have := maxOf?_le _ _ hmd _ hmem
                rw [List.get?_eq_getElem?] at hp
                simpa [dstgD, hp] using this
          have hlen_of_eng : ∀ j, isEngineAt parts2 j = true → j < parts2.length := by
            intro j hj
            by_contra hc
            have hnone : parts2.get? j = none := List.get?_eq_none.mpr (by omega)
            rw [List.get?_eq_getElem?] at hnone
            simp [isEngineAt, hnone] at hj
          have hmimd : mi ≤ max mi md ∧ md ≤ max mi md :=
            ⟨le_max_left _ _, le_max_right _ _⟩
          intro i stg hstg
          rw [stageBuild_get?] at hstg
          by_cases hk : i < Int.toNat (max mi md + 1)
          case neg => rw [if_neg hk] at hstg; exact Option.noConfusion hstg
          rw [if_pos hk] at hstg
          obtain hstg := Option.some.inj hstg
          subst hstg
          have hn : ((Int.toNat (max mi md + 1) : Nat) : Int) = max mi md + 1 := by
            omega
          simp only [Stage.available_thrusters]
          have hdrop : (stageBuild parts2 (Int.toNat (max mi md + 1))).drop
              (mkStage parts2 i).stage_num =
              (List.range' i (Int.toNat (max mi md + 1) - i)).map (mkStage parts2) := by
            show (stageBuild parts2 (Int.toNat (max mi md + 1))).drop i = _
            simp only [stageBuild]
            rw [← List.map_drop]
            rw [List.range_eq_range', drop_range' i _ 0]
            simp
          rw [hdrop]
          have hstbound : ∀ st2 ∈ (List.range' i (Int.toNat (max mi md + 1) - i)).map
              (mkStage parts2),
              (∀ j ∈ st2.ignition, j < parts2.length) ∧
              (∀ j ∈ st2.detach, j < parts2.length) := by
            intro st2 hst2
            obtain ⟨k, hk2, hst3⟩ := List.mem_map.mp hst2
            subst hst3
            constructor
            · intro j hj; exact ((mem_ignIdx parts2 k j).mp hj).1
            · intro j hj; exact ((mem_detIdx parts2 k j).mp hj).1
          obtain ⟨I, D, hloop, hmemI, hmemD⟩ :=
            availLoop_eq parts2 htyped _ [] [] hstbound
          rw [hloop]
          refine ⟨I.filter (fun j => !D.contains j), rfl, ?_⟩
          have hIchar : ∀ j, j ∈ I ↔
              (isEngineAt parts2 j = true ∧ (i : Int) ≤ istgD parts2 j) := by
            intro j
            rw [hmemI j]
            simp only [List.not_mem_nil, false_or]
            constructor
            · rintro ⟨st2, hst2, hj, heng⟩
              obtain ⟨k, hkmem, hkeq⟩ := List.mem_map.mp hst2
              subst hkeq
              obtain ⟨hjl, hje⟩ := (mem_ignIdx parts2 k j).mp hj
              have hkr := List.mem_range'_1.mp hkmem
              have hist : istgD parts2 j = (k : Int) := by
                simp only [istgD, hje, Option.getD_some]
              refine ⟨heng, ?_⟩
              rw [hist]
              exact_mod_cast hkr.1
            · rintro ⟨heng, hge⟩
              have hjl : j < parts2.length := hlen_of_eng j heng
              cases hp : parts2.get? j with
              | none =>
                  have := List.get?_eq_none.mp hp
                  omega
              | some p =>
                  have hps := hsomeI p (List.get?_mem hp)
                  cases hx : p.istg with
                  | none => rw [hx] at hps; simp at hps
                  | some x =>
                      have hist : istgD parts2 j = x := by
                        simp only [istgD, hp, Option.some_bind, hx, Option.getD_some]
                      have hx0 : 0 ≤ x := by
                        rw [hist] at hge
                        omega
                      have hxk : ((x.toNat : Nat) : Int) = x := Int.toNat_of_nonneg hx0
                      have hxle : x ≤ mi := by
                        have := hboundI j hjl
                        rw [hist] at this
                        exact this
                      refine ⟨mkStage parts2 x.toNat, ?_, ?_, heng⟩
                      · apply List.mem_map_of_mem
                        apply List.mem_range'_1.mpr
                        rw [hist] at hge
                        constructor
                        · omega
                        · have := hmimd.1
                          omega
                      · apply (mem_ignIdx parts2 x.toNat j).mpr
                        refine ⟨hjl, ?_⟩
                        rw [hp]
                        simp only [Option.some_bind, hx, hxk]
          have hDchar : ∀ j, j ∈ D ↔
              (isEngineAt parts2 j = true ∧ (i : Int) ≤ dstgD parts2 j) := by
            intro j
            rw [hmemD j]
            simp only [List.not_mem_nil, false_or]
            constructor
            · rintro ⟨st2, hst2, hj, heng⟩
              obtain ⟨k, hkmem, hkeq⟩ := List.mem_map.mp hst2
              subst hkeq
              obtain ⟨hjl, hje⟩ := (mem_detIdx parts2 k j).mp hj
              have hkr := List.mem_range'_1.mp hkmem
              have hist : dstgD parts2 j = (k : Int) := by
                simp only [dstgD, hje, Option.getD_some]
              refine ⟨heng, ?_⟩
              rw [hist]
              exact_mod_cast hkr.1
            · rintro ⟨heng, hge⟩
              have hjl : j < parts2.length := hlen_of_eng j heng
              cases hp : parts2.get? j with
              | none =>
                  have := List.get?_eq_none.mp hp
                  omega
              | some p =>
                  have hps := hsomeD p (List.get?_mem hp)
                  cases hx : p.dstg with
                  | none => rw [hx] at hps; simp at hps
                  | some x =>
                      have hist : dstgD parts2 j = x := by
                        simp only [dstgD, hp, Option.some_bind, hx, Option.getD_some]
                      have hx0 : 0 ≤ x := by
                        rw [hist] at hge
                        omega
                      have hxk : ((x.toNat : Nat) : Int) = x := Int.toNat_of_nonneg hx0
                      have hxle : x ≤ md := by
                        have := hboundD j hjl
                        rw [hist] at this
                        exact this
                      refine ⟨mkStage parts2 x.toNat, ?_, ?_, heng⟩
                      · apply List.mem_map_of_mem
                        apply List.mem_range'_1.mpr
                        rw [hist] at hge
                        constructor
                        · omega
                        · have := hmimd.2
                          omega
                      · apply (mem_detIdx parts2 x.toNat j).mpr
                        refine ⟨hjl, ?_⟩
                        rw [hp]
                        simp only [Option.some_bind, hx, hxk]
          intro j
          rw [List.mem_filter]
          constructor
          · rintro ⟨hI2, hD2⟩
            obtain ⟨heng, hge⟩ := (hIchar j).mp hI2
            have hnD : j ∉ D := by
              simpa using hD2
            have hlt : dstgD parts2 j < (i : Int) := by
              by_contra hc
              exact hnD ((hDchar j).mpr ⟨heng, by omega⟩)
            exact ⟨heng, hge, hlt⟩
          · rintro ⟨heng, hge, hlt⟩
            refine ⟨(hIchar j).mpr ⟨heng, hge⟩, ?_⟩
            have hnD : j ∉ D := by
              intro hD3
              obtain ⟨-, hge2⟩ := (hDchar j).mp hD3
              omega
            simpa using hnD

/-- C3 witness: in the concrete two-engine ship, at stage 2 the engine
whose detach stage is 0 is available while the engine detaching at stage 2
itself is excluded. -/
theorem c3_witness :
    (∀ i stg, shipEngLit.stages.get? i = some stg →
      ∃ l, Stage.available_thrusters shipEngLit stg = some l ∧
        ∀ j, j ∈ l ↔ (isEngineAt shipEngLit.parts j = true ∧
          (i : Int) ≤ istgD shipEngLit.parts j ∧
          dstgD shipEngLit.parts j < (i : Int))) ∧
    Stage.available_thrusters shipEngLit ⟨2, [0, 1], [1], []⟩ = some [0] := by
  have hL : Ship.load shipTextEng libAB [] = some (shipEngLit, []) := by decide
  exact ⟨c3_available_thrusters _ _ _ _ _ hL (by decide), by decide⟩

end Kspace
